import Mathlib

/-!
Verification development for the browser-recall repository.

This file gives a shallow embedding, in Lean 4, of the parts of the code that
the frozen claims talk about:

  * the glob-style domain filters of app/config.py
    (the module-level Config class's is_domain_ignored, which is the check
    actually used by the sync engine and the enrichment worker, and
    ReaderConfig.is_domain_excluded together with its octet-aware
    _match_ip_pattern helper);
  * the singleton construction protocol of the module-level Config class;
  * the three watermark-advancing sync cycles
    (HistoryScheduler.update_history, HistoryScheduler.update_bookmarks in
    app/scheduler.py, and process_browser_history in app/main.py) together
    with the last_processed watermark table of app/database.py;
  * the ranked basic search query of app/main.py (search_history);
  * the enrichment batch processing of
    HistoryScheduler._process_markdown_batch in app/scheduler.py;
  * the HTML-to-text pipeline of app/page_reader.py (clean_html,
    clean_whitespace, html_to_markdown).

Python strings are modelled as List Char, timestamps as Int epoch seconds,
SQL NULL-able text columns as Option String, and the two external
collaborators that the code calls but does not define (BeautifulSoup
re-serialisation and the markdownify converter, the crawler fetch, the
urllib netloc extraction, SQLite FTS matching) as explicit function
parameters of the embedded operations.
-/

namespace BrowserRecall

/-! ## Characters and strings: small Python-like helpers -/

/-- Lower-casing of one character, as Python's str.lower does on ASCII
(the only alphabet domains and patterns use here). -/
def pyToLower (c : Char) : Char := c.toLower

/-- Lower-casing of a string given as a character list. -/
def lowerStr (s : List Char) : List Char := s.map pyToLower

/-- Python's str.split on a single dot separator: splitting the empty string
yields one empty field, and every dot opens a new field. -/
def splitDot : List Char → List (List Char)
  | [] => [[]]
  | '.' :: r => [] :: splitDot r
  | c :: r =>
    match splitDot r with
    | s :: ss => (c :: s) :: ss
    | [] => [[c]]

/-- Does the string contain a decimal digit (Python any(c.isdigit())). -/
def hasDigit (s : List Char) : Bool := s.any (fun c => c.isDigit)

/-! ## fnmatch.fnmatch: the glob matcher used by both domain filters

The embedding follows fnmatch.translate: a star matches any run of
characters, a question mark one character, and a bracket expression one
character out of a set (with a leading bang for negation, a first literal
closing bracket, and dash ranges); an unterminated bracket is a literal
open bracket.  Matching is anchored at both ends, as re.fullmatch is. -/

/-- One character against the contents of a bracket expression, with dash
ranges; a dash that cannot form a range is literal. -/
def charInSet : List Char → Char → Bool
  | [], _ => false
  | a :: '-' :: b :: rest, c =>
    (decide (a ≤ c) && decide (c ≤ b)) || charInSet rest c
  | a :: rest, c => (a == c) || charInSet rest c

/-- Scan for the closing bracket of a bracket expression; returns the set
contents and the remainder of the pattern. -/
def findClassEnd : List Char → Option (List Char × List Char)
  | [] => none
  | c :: r =>
    if c = ']' then some ([], r)
    else (findClassEnd r).map (fun p => (c :: p.1, p.2))

theorem findClassEnd_length {l s rest : List Char}
    (h : findClassEnd l = some (s, rest)) : rest.length < l.length := by
  induction l generalizing s rest with
  | nil => simp [findClassEnd] at h
  | cons c r ih =>
    rw [findClassEnd] at h
    by_cases hc : c = ']'
    · rw [if_pos hc] at h
      injection h with h
      injection h with h1 h2
      simp [← h2]
    · rw [if_neg hc, Option.map_eq_some'] at h
      obtain ⟨⟨p1, p2⟩, heq', hfp⟩ := h
      injection hfp with hs hr
      have hlt := ih heq'
      simp [← hr]
      omega

/-- The body of a bracket expression after the optional negation bang: a
closing bracket in first position is literal set content. -/
def parseClassCore : List Char → Option (List Char × List Char)
  | [] => none
  | c :: r =>
    if c = ']' then (findClassEnd r).map (fun p => (']' :: p.1, p.2))
    else findClassEnd (c :: r)

/-- Parse a bracket expression (the part after the open bracket), following
fnmatch.translate: an optional leading bang negates, a closing bracket right
after it is literal set content. -/
def parseClass (l : List Char) : Option (Bool × List Char × List Char) :=
  if l.head? = some '!' then (parseClassCore l.tail).map (fun p => (true, p.1, p.2))
  else (parseClassCore l).map (fun p => (false, p.1, p.2))

theorem parseClassCore_length {l s rest : List Char}
    (h : parseClassCore l = some (s, rest)) : rest.length < l.length := by
  cases l with
  | nil => simp [parseClassCore] at h
  | cons c r =>
    rw [parseClassCore] at h
    by_cases hc : c = ']'
    · rw [if_pos hc, Option.map_eq_some'] at h
      obtain ⟨⟨p1, p2⟩, heq, hfp⟩ := h
      injection hfp with hs hr
      have := findClassEnd_length heq
      simp [← hr]
      omega
    · rw [if_neg hc] at h
      exact findClassEnd_length h

theorem parseClass_length {l s rest : List Char} {neg : Bool}
    (h : parseClass l = some (neg, s, rest)) : rest.length < l.length := by
  unfold parseClass at h
  by_cases hb : l.head? = some '!'
  · rw [if_pos hb, Option.map_eq_some'] at h
    obtain ⟨⟨p1, p2⟩, heq, hfp⟩ := h
    injection hfp with hn hrest
    injection hrest with hs hr
    have hlt := parseClassCore_length heq
    cases l with
    | nil => simp at hb
    | cons a r =>
      simp at hlt
      simp [← hr]
      omega
  · rw [if_neg hb, Option.map_eq_some'] at h
    obtain ⟨⟨p1, p2⟩, heq, hfp⟩ := h
    injection hfp with hn hrest
    injection hrest with hs hr
    have hlt := parseClassCore_length heq
    simp [← hr]
    omega

/-- One compiled element of a glob pattern: a star, a question mark, a
bracket expression (negation flag and set contents), or a literal
character. -/
inductive GlobTok where
  | star : GlobTok
  | qmark : GlobTok
  | cls : Bool → List Char → GlobTok
  | lit : Char → GlobTok
deriving DecidableEq

/-- Compile a glob pattern into tokens, scanning left to right exactly as
fnmatch.translate does; the fuel argument (instantiated with the pattern
length, which the scan never exceeds) makes the recursion structural. -/
def compileGlob : Nat → List Char → List GlobTok
  | 0, _ => []
  | _, [] => []
  | fuel + 1, c :: ps =>
    if c = '*' then GlobTok.star :: compileGlob fuel ps
    else if c = '?' then GlobTok.qmark :: compileGlob fuel ps
    else if c = '[' then
      (match parseClass ps with
       | some (neg, set, rest) => GlobTok.cls neg set :: compileGlob fuel rest
       | none => GlobTok.lit '[' :: compileGlob fuel ps)
    else GlobTok.lit c :: compileGlob fuel ps

/-- Try a continuation on every suffix of the string (the backtracking a
star performs). -/
def tryTails (f : List Char → Bool) : List Char → Bool
  | [] => f []
  | c :: cs => f (c :: cs) || tryTails f cs

/-- Match a compiled glob pattern against a string, anchored at both ends
exactly as re.fullmatch on fnmatch.translate output is. -/
def tokMatch : List GlobTok → List Char → Bool
  | [], s => s.isEmpty
  | GlobTok.star :: ts, s => tryTails (fun t => tokMatch ts t) s
  | GlobTok.qmark :: ts, s =>
    (match s with
     | [] => false
     | _ :: cs => tokMatch ts cs)
  | GlobTok.cls neg set :: ts, s =>
    (match s with
     | [] => false
     | c :: cs => (charInSet set c != neg) && tokMatch ts cs)
  | GlobTok.lit a :: ts, s =>
    (match s with
     | [] => false
     | c :: cs => (a == c) && tokMatch ts cs)

/-- The glob matcher behind fnmatch.fnmatch (anchored full match). -/
def globMatch (pattern s : List Char) : Bool :=
  tokMatch (compileGlob pattern.length pattern) s

/-- fnmatch.fnmatch as called by the config code: both arguments are already
lower-cased by the callers, and os.path.normcase is the identity on the
POSIX platform the service runs on. -/
def fnmatchMatch (name pattern : List Char) : Bool := globMatch pattern name

/-! ## app/config.py, module-level Config: is_domain_ignored

This is the check the sync engine (HistoryScheduler.update_history,
HistoryScheduler.update_bookmarks), the startup sync
(process_browser_history) and the enrichment worker
(_process_markdown_batch) all call, through the process-wide Config
singleton.  An empty domain is ignored; with an empty pattern list nothing
is ignored; otherwise the lower-cased domain is matched by fnmatch against
each lower-cased pattern in turn (non-string patterns are skipped, which the
model renders by taking the pattern list as strings). -/
def configIsDomainIgnored (excluded_domains : List (List Char)) (domain : List Char) : Bool :=
  if domain.isEmpty then true
  else if excluded_domains.isEmpty then false
  else excluded_domains.any (fun pattern => fnmatchMatch (lowerStr domain) (lowerStr pattern))

/-! ## app/config.py, ReaderConfig: _match_ip_pattern and is_domain_excluded -/

/-- ReaderConfig._match_ip_pattern: octet-aware comparison used for patterns
containing a digit.  A domain without a digit never matches; otherwise split
both on dots, require equal segment counts, and compare segmentwise with a
star segment matching any single segment. -/
def matchIpPattern (domain pattern : List Char) : Bool :=
  if ¬ hasDigit domain then false
  else
    let domain_parts := splitDot domain
    let pattern_parts := splitDot pattern
    if domain_parts.length ≠ pattern_parts.length then false
    else (domain_parts.zip pattern_parts).all
      (fun dp => dp.2 == ['*'] || dp.1 == dp.2)

/-- ReaderConfig.is_domain_excluded: lower-case the domain, then for every
lower-cased pattern try, in order, the octet-aware comparison (only when the
pattern contains a digit), a plain fnmatch, and an fnmatch against the
pattern prefixed with star-dot (the subdomain test). -/
def readerIsDomainExcluded (excluded_patterns : List (List Char)) (domain : List Char) : Bool :=
  let d := lowerStr domain
  excluded_patterns.any (fun pattern0 =>
    let pattern := lowerStr pattern0
    (hasDigit pattern && matchIpPattern d pattern) ||
      fnmatchMatch d pattern ||
      fnmatchMatch d ('*' :: '.' :: pattern))

example : configIsDomainIgnored ["example.com".toList] "sub.example.com".toList = false := by decide
example : configIsDomainIgnored ["*.example.com".toList] "sub.example.com".toList = true := by decide
example : configIsDomainIgnored ["example.com".toList] "example.com".toList = true := by decide
example : readerIsDomainExcluded ["example.com".toList] "sub.example.com".toList = true := by decide
example : readerIsDomainExcluded ["192.168.*.*".toList] "192.168.5.9".toList = true := by decide
example : readerIsDomainExcluded ["192.168.*.*".toList] "192.167.5.9".toList = false := by decide
example : matchIpPattern "192.168.5".toList "192.168.*.*".toList = false := by decide

/-! ## app/config.py, module-level Config: the singleton protocol

Config.__new__ stores the first instance in the class attribute _instance
and returns it for every later construction; Config.__init__ returns
immediately once _initialized is set, so the config_path argument of every
construction after the first is ignored.  The filesystem that
_determine_config_path and _load_config consult is modelled as an explicit
environment (which paths exist, and the excluded_domains list each path
parses to, none standing for a missing or unparseable file). -/

/-- The fields of a Config instance that the embedded operations read. -/
structure ConfigObj where
  initialized : Bool
  config_path : Option (List Char)
  excluded_domains : List (List Char)
deriving DecidableEq

/-- The filesystem as Config sees it: os.path.exists, and the
excluded_domains list that loading a path yields (none when opening or
parsing fails, which _load_config turns into an empty config). -/
structure ConfigEnv where
  pathExists : List Char → Bool
  loadExcluded : List Char → Option (List (List Char))

def userConfigPath : List Char := "~/.config/browser-recall/reader_config.yaml".toList

def defaultConfigPath : List Char := "config/reader_config.yaml".toList

/-- Config._determine_config_path: a provided path that exists wins, then the
user-level path, then the repo default, else none. -/
def determineConfigPath (env : ConfigEnv) (provided : Option (List Char)) : Option (List Char) :=
  match provided with
  | some p => if env.pathExists p then some p else determineConfigPathNoProvided env
  | none => determineConfigPathNoProvided env
where
  determineConfigPathNoProvided (env : ConfigEnv) : Option (List Char) :=
    if env.pathExists userConfigPath then some userConfigPath
    else if env.pathExists defaultConfigPath then some defaultConfigPath
    else none

/-- Config._load_config followed by the excluded_domains extraction of
Config.__init__: no path or a failed load give the empty list. -/
def loadExcludedDomains (env : ConfigEnv) (path : Option (List Char)) : List (List Char) :=
  match path with
  | none => []
  | some p =>
    match env.loadExcluded p with
    | none => []
    | some l => l

/-- Config.__new__: reuse the stored instance when there is one, otherwise
allocate a fresh uninitialized instance and store it. -/
def configNew (inst : Option ConfigObj) : ConfigObj × Option ConfigObj :=
  match inst with
  | some c => (c, some c)
  | none =>
    let c : ConfigObj := { initialized := false, config_path := none, excluded_domains := [] }
    (c, some c)

/-- Config.__init__: a no-op on an initialized instance; otherwise determine
the path and load the excluded_domains list. -/
def configInit (env : ConfigEnv) (config_path : Option (List Char)) (c : ConfigObj) : ConfigObj :=
  if c.initialized then c
  else
    let path := determineConfigPath env config_path
    { initialized := true
      config_path := path
      excluded_domains := loadExcludedDomains env path }

/-- One Config(config_path) call: __new__ then __init__, with the possibly
mutated instance written back to the class attribute. -/
def configCtor (env : ConfigEnv) (config_path : Option (List Char))
    (inst : Option ConfigObj) : ConfigObj × Option ConfigObj :=
  let c := (configNew inst).1
  let c1 := configInit env config_path c
  (c1, some c1)

/-! ## app/database.py: the last_processed watermark table -/

/-- The last_processed table: one integer epoch-seconds row per source key. -/
def WatermarkStore := List (List Char × Int)

instance : DecidableEq WatermarkStore := by
  unfold WatermarkStore
  infer_instance

/-- get_last_processed_timestamp: the stored value, or 0 when the source has
no row yet (result[0] if result else 0). -/
def getLastProcessedTimestamp (store : WatermarkStore) (source : List Char) : Int :=
  match store.lookup source with
  | some v => v
  | none => 0

/-- update_last_processed_timestamp: INSERT OR REPLACE of the source's row. -/
def updateLastProcessedTimestamp (store : WatermarkStore) (source : List Char)
    (timestamp : Int) : WatermarkStore :=
  match store with
  | [] => [(source, timestamp)]
  | (k, v) :: rest =>
    if k = source then (k, timestamp) :: rest
    else (k, v) :: updateLastProcessedTimestamp rest source timestamp

/-! ## app/scheduler.py and app/main.py: the three sync cycles

Timestamps are modelled after normalization: _normalize_datetime maps a
missing timestamp to None and anything else to a UTC instant, rendered here
as epoch seconds, so a raw entry carries an Option Int.  The commit of a
cycle's batch can fail (SQLAlchemy raising inside db.commit), modelled as a
boolean outcome supplied to the cycle; urllib.parse.urlparse(url).netloc is
an external parameter netloc. -/

/-- One raw visit tuple from BrowserHistoryCollector.fetch_history, after
timestamp normalization (none = missing or invalid timestamp). -/
structure RawVisit where
  t : Option Int
  url : List Char
  title : List Char
deriving DecidableEq

/-- One raw bookmark tuple from fetch_bookmarks, after normalization. -/
structure RawBookmark where
  t : Option Int
  url : List Char
  title : List Char
  folder : List Char
deriving DecidableEq

/-- A committed history row (markdown_content initially NULL). -/
structure HistoryRow where
  url : List Char
  title : List Char
  visit_time : Int
  domain : List Char
  markdown_content : Option (List Char)
deriving DecidableEq

/-- A committed bookmark row. -/
structure BookmarkRow where
  url : List Char
  title : List Char
  added_time : Int
  folder : List Char
  domain : List Char
deriving DecidableEq

def historySchedulerKey : List Char := "browser_history_scheduler".toList

def bookmarksKey : List Char := "browser_bookmarks".toList

def initialHistoryKey : List Char := "browser_history".toList

/-- The per-entry filter loop of HistoryScheduler.update_history: skip
entries with an empty url or no timestamp, keep only entries strictly newer
than the watermark, deduplicate on the (url, timestamp) pair (the pair is
recorded only for entries that are kept), and drop ignored domains. -/
def filterNewHistory (patterns : List (List Char)) (netloc : List Char → List Char)
    (lastTimestamp : Int) :
    List RawVisit → List (List Char × Int) → List HistoryRow
  | [], _ => []
  | r :: rest, seen =>
    if r.url.isEmpty then filterNewHistory patterns netloc lastTimestamp rest seen
    else
      match r.t with
      | none => filterNewHistory patterns netloc lastTimestamp rest seen
      | some t =>
        if t > lastTimestamp then
          if (r.url, t) ∈ seen then filterNewHistory patterns netloc lastTimestamp rest seen
          else
            let domain := netloc r.url
            if configIsDomainIgnored patterns domain then
              filterNewHistory patterns netloc lastTimestamp rest seen
            else
              { url := r.url, title := r.title, visit_time := t, domain := domain
                markdown_content := none } ::
                filterNewHistory patterns netloc lastTimestamp rest ((r.url, t) :: seen)
        else filterNewHistory patterns netloc lastTimestamp rest seen

/-- The per-entry filter loop of HistoryScheduler.update_bookmarks: skip
empty or batch-duplicate urls (the url is recorded only for bookmarks that
are kept), skip missing timestamps, keep only entries strictly newer than
the watermark, and drop ignored domains. -/
def filterNewBookmarks (patterns : List (List Char)) (netloc : List Char → List Char)
    (lastTimestamp : Int) :
    List RawBookmark → List (List Char) → List BookmarkRow
  | [], _ => []
  | r :: rest, processed =>
    if r.url.isEmpty || r.url ∈ processed then
      filterNewBookmarks patterns netloc lastTimestamp rest processed
    else
      match r.t with
      | none => filterNewBookmarks patterns netloc lastTimestamp rest processed
      | some t =>
        if t > lastTimestamp then
          let domain := netloc r.url
          if configIsDomainIgnored patterns domain then
            filterNewBookmarks patterns netloc lastTimestamp rest processed
          else
            { url := r.url, title := r.title, added_time := t, folder := r.folder
              domain := domain } ::
              filterNewBookmarks patterns netloc lastTimestamp rest (r.url :: processed)
        else filterNewBookmarks patterns netloc lastTimestamp rest processed

/-- The shared persistent state the cycles act on. -/
structure SyncState where
  history : List HistoryRow
  bookmarks : List BookmarkRow
  store : WatermarkStore
deriving DecidableEq

/-- One iteration of the HistoryScheduler.update_history loop: read the
watermark, filter the fetched snapshot, and either commit the batch in one
transaction and advance the watermark to the pre-fetch now on success, roll
back and leave both untouched on commit failure, or, when nothing survived
filtering, just advance the watermark. -/
def updateHistoryCycle (patterns : List (List Char)) (netloc : List Char → List Char)
    (now : Int) (raw : List RawVisit) (commitOk : Bool) (s : SyncState) : SyncState :=
  let lastTimestamp := getLastProcessedTimestamp s.store historySchedulerKey
  let newEntries := filterNewHistory patterns netloc lastTimestamp raw []
  if newEntries.isEmpty then
    { s with store := updateLastProcessedTimestamp s.store historySchedulerKey now }
  else if commitOk then
    { s with
      history := s.history ++ newEntries
      store := updateLastProcessedTimestamp s.store historySchedulerKey now }
  else s

/-- One iteration of HistoryScheduler.update_bookmarks, same shape as the
history cycle with its own source key. -/
def updateBookmarksCycle (patterns : List (List Char)) (netloc : List Char → List Char)
    (now : Int) (raw : List RawBookmark) (commitOk : Bool) (s : SyncState) : SyncState :=
  let lastTimestamp := getLastProcessedTimestamp s.store bookmarksKey
  let newBookmarks := filterNewBookmarks patterns netloc lastTimestamp raw []
  if newBookmarks.isEmpty then
    { s with store := updateLastProcessedTimestamp s.store bookmarksKey now }
  else if commitOk then
    { s with
      bookmarks := s.bookmarks ++ newBookmarks
      store := updateLastProcessedTimestamp s.store bookmarksKey now }
  else s

/-- One raw visit as process_browser_history receives it from the
browser_history package (the timestamp is taken as valid there). -/
structure InitialRawVisit where
  t : Int
  url : List Char
  title : List Char
deriving DecidableEq

/-- One run of process_browser_history in app/main.py: keep entries strictly
newer than the watermark; when any exist, insert each surviving entry in its
own transaction (an insert error rolls back only that entry) and then
advance the watermark to now unconditionally; when none are newer, leave
the watermark untouched. -/
def processBrowserHistoryCycle (patterns : List (List Char)) (netloc : List Char → List Char)
    (now : Int) (raw : List InitialRawVisit) (insertOk : InitialRawVisit → Bool)
    (s : SyncState) : SyncState :=
  let lastTimestamp := getLastProcessedTimestamp s.store initialHistoryKey
  let newEntries := raw.filter (fun e => e.t > lastTimestamp)
  if newEntries.isEmpty then s
  else
    let history1 := newEntries.foldl
      (fun db e =>
        let domain := netloc e.url
        if configIsDomainIgnored patterns domain then db
        else if insertOk e then
          db ++ [{ url := e.url, title := e.title, visit_time := e.t, domain := domain
                   markdown_content := none : HistoryRow }]
        else db)
      s.history
    { s with
      history := history1
      store := updateLastProcessedTimestamp s.store initialHistoryKey now }

/-- A cycle of any of the three sync loops, with its pre-fetch now, its
fetched snapshot and its commit outcomes. -/
inductive SyncCycle where
  | history (now : Int) (raw : List RawVisit) (commitOk : Bool) : SyncCycle
  | bookmarks (now : Int) (raw : List RawBookmark) (commitOk : Bool) : SyncCycle
  | initial (now : Int) (raw : List InitialRawVisit) (insertOk : InitialRawVisit → Bool) : SyncCycle

/-- The pre-fetch now a cycle records before fetching. -/
def SyncCycle.now : SyncCycle → Int
  | SyncCycle.history n _ _ => n
  | SyncCycle.bookmarks n _ _ => n
  | SyncCycle.initial n _ _ => n

/-- Execute one sync cycle. -/
def stepSync (patterns : List (List Char)) (netloc : List Char → List Char) :
    SyncCycle → SyncState → SyncState
  | SyncCycle.history n raw ok, s => updateHistoryCycle patterns netloc n raw ok s
  | SyncCycle.bookmarks n raw ok, s => updateBookmarksCycle patterns netloc n raw ok s
  | SyncCycle.initial n raw ok, s => processBrowserHistoryCycle patterns netloc n raw ok s

/-- Execute a sequence of sync cycles in order. -/
def runSync (patterns : List (List Char)) (netloc : List Char → List Char) :
    List SyncCycle → SyncState → SyncState
  | [], s => s
  | c :: cs, s => runSync patterns netloc cs (stepSync patterns netloc c s)

/-! ## A stable sort giving an executable semantics to SQL ORDER BY

SQLite only promises that the output is ordered by the given keys; within
equal keys this embedding keeps the table (scan) order, which is what the
engine's simple table scans produce. -/

/-- Insert an element into a list sorted by the relation le, before the
first element it is le-related to (so equal keys keep insertion order). -/
def insertByLe (le : α → α → Bool) (a : α) : List α → List α
  | [] => [a]
  | b :: l => if le a b then a :: b :: l else b :: insertByLe le a l

/-- Stable insertion sort by le. -/
def sortByLe (le : α → α → Bool) : List α → List α
  | [] => []
  | a :: l => insertByLe le a (sortByLe le l)

theorem mem_insertByLe {le : α → α → Bool} {a x : α} {l : List α} :
    x ∈ insertByLe le a l ↔ x = a ∨ x ∈ l := by
  induction l with
  | nil => simp [insertByLe]
  | cons b t ih =>
    rw [insertByLe]
    by_cases h : le a b
    · simp [h]
    · simp [h, ih]
      tauto

theorem mem_sortByLe {le : α → α → Bool} {x : α} {l : List α} :
    x ∈ sortByLe le l ↔ x ∈ l := by
  induction l with
  | nil => simp [sortByLe]
  | cons a t ih => rw [sortByLe]; simp [mem_insertByLe, ih]

theorem length_insertByLe {le : α → α → Bool} {a : α} {l : List α} :
    (insertByLe le a l).length = l.length + 1 := by
  induction l with
  | nil => simp [insertByLe]
  | cons b t ih =>
    rw [insertByLe]
    by_cases h : le a b <;> simp [h, ih]

theorem length_sortByLe {le : α → α → Bool} {l : List α} :
    (sortByLe le l).length = l.length := by
  induction l with
  | nil => simp [sortByLe]
  | cons a t ih => rw [sortByLe]; simp [length_insertByLe, ih]

theorem pairwise_insertByLe {le : α → α → Bool} {a : α} {l : List α}
    (htot : ∀ x y : α, le x y || le y x)
    (htrans : ∀ x y z : α, le x y = true → le y z = true → le x z = true)
    (hl : l.Pairwise (fun x y => le x y = true)) :
    (insertByLe le a l).Pairwise (fun x y => le x y = true) := by
  induction l with
  | nil => simp [insertByLe]
  | cons b t ih =>
    rw [insertByLe]
    rcases List.pairwise_cons.mp hl with ⟨hb, ht⟩
    by_cases h : le a b
    · rw [if_pos h]
      refine List.pairwise_cons.mpr ⟨?_, hl⟩
      intro x hx
      rcases List.mem_cons.mp hx with hx | hx
      · subst hx; exact h
      · exact htrans a b x h (hb x hx)
    · rw [if_neg h]
      refine List.pairwise_cons.mpr ⟨?_, ih ht⟩
      intro x hx
      rcases mem_insertByLe.mp hx with hx | hx
      · have hba := htot a b
        simp [h] at hba
        subst hx
        exact hba
      · exact hb x hx

theorem pairwise_sortByLe {le : α → α → Bool} {l : List α}
    (htot : ∀ x y : α, le x y || le y x)
    (htrans : ∀ x y z : α, le x y = true → le y z = true → le x z = true) :
    (sortByLe le l).Pairwise (fun x y => le x y = true) := by
  induction l with
  | nil => simp [sortByLe]
  | cons a t ih => rw [sortByLe]; exact pairwise_insertByLe htot htrans ih

/-! ## app/main.py: basic search (the search_history endpoint, FTS branch)

The WHERE clause of the raw SQL is embedded with SQL operator precedence:
AND binds tighter than OR, so the clause reads

  title LIKE contains
  OR (content IS NOT NULL AND fts-match)
     AND domain-filter AND start-filter AND end-filter.

The CASE scoring (4.0 exact title, 3.0 title starts-with, 2.0 title
contains, 1.0 content match, 0.5 baseline) is multiplied by the recency
expression, whose division of the two strftime epoch integers is SQLite
integer division (truncation).  LIKE is ASCII-case-insensitive; the search
term is taken as plain text, as no wildcard is injected into the LIKE
patterns besides the percent signs shown.  The native FTS MATCH primitive
is an external parameter.  ORDER BY final_rank DESC keeps equal ranks in
table order, and LIMIT 100 truncates. -/

/-- A history row as basic search sees it. -/
structure SearchRow where
  id : Nat
  url : List Char
  title : List Char
  visit_time : Int
  domain : List Char
  markdown_content : Option (List Char)
deriving DecidableEq

/-- Does hay contain needle as a contiguous run (SQL LIKE percent-term-percent
on lower-cased operands). -/
def listHasRun (hay needle : List Char) : Bool :=
  match hay with
  | [] => needle.isEmpty
  | _ :: t => needle.isPrefixOf hay || listHasRun t needle

/-- LIKE with the bare term: ASCII-case-insensitive equality. -/
def likeExact (s pat : List Char) : Bool := lowerStr s == lowerStr pat

/-- LIKE term-percent: case-insensitive starts-with. -/
def likeStarts (s pat : List Char) : Bool := (lowerStr pat).isPrefixOf (lowerStr s)

/-- LIKE percent-term-percent: case-insensitive contains. -/
def likeHas (s pat : List Char) : Bool := listHasRun (lowerStr s) (lowerStr pat)

/-- The CASE expression of the ranked query. -/
def baseScore (term : List Char) (r : SearchRow) : ℚ :=
  if likeExact r.title term then 4
  else if likeStarts r.title term then 3
  else if likeHas r.title term then 2
  else if (match r.markdown_content with
           | some c => likeExact c term || likeStarts c term || likeHas c term
           | none => false) then 1
  else 1 / 2

/-- The recency multiplier: integer division of the row's visit epoch by the
current epoch, times one half, plus one. -/
def recencyFactor (nowEpoch visit : Int) : ℚ := ((Int.tdiv visit nowEpoch : Int) : ℚ) * (1 / 2) + 1

/-- final_rank of a row. -/
def finalRank (term : List Char) (nowEpoch : Int) (r : SearchRow) : ℚ :=
  baseScore term r * recencyFactor nowEpoch r.visit_time

/-- The WHERE clause with SQL precedence: the title-contains disjunct is
alone on the left of OR, and the domain and date predicates are conjoined
only with the content-match disjunct. -/
def whereClause (ftsMatch : SearchRow → Bool) (term : List Char)
    (domainFilter : Option (List Char)) (startFilter endFilter : Option Int)
    (r : SearchRow) : Bool :=
  likeHas r.title term ||
    ((r.markdown_content.isSome && ftsMatch r) &&
      (match domainFilter with | none => true | some d => r.domain == d) &&
      (match startFilter with | none => true | some a => decide (r.visit_time ≥ a)) &&
      (match endFilter with | none => true | some b => decide (r.visit_time ≤ b)))

/-- The ranked basic-search query of app/main.py search_history: filter by
the WHERE clause, keep rows with positive final_rank, order by final_rank
descending and return at most 100 rows. -/
def searchHistoryBasic (ftsMatch : SearchRow → Bool) (nowEpoch : Int) (term : List Char)
    (domainFilter : Option (List Char)) (startFilter endFilter : Option Int)
    (db : List SearchRow) : List SearchRow :=
  let cands := db.filter (whereClause ftsMatch term domainFilter startFilter endFilter)
  let ranked := cands.filter (fun r => decide (0 < finalRank term nowEpoch r))
  (sortByLe (fun a b => decide (finalRank term nowEpoch b ≤ finalRank term nowEpoch a)) ranked).take 100

/-! ## app/scheduler.py: HistoryScheduler._process_markdown_batch

A numbered HistoryEntry row for the enrichment worker; the crawl of one url
either raises (error), completes without usable markdown (noContent, which
also covers a falsy empty result), or yields markdown text. -/

structure EnrichEntry where
  id : Nat
  url : List Char
  visit_time : Int
  markdown_content : Option (List Char)
deriving DecidableEq

/-- The outcome of AsyncWebCrawler.arun on one url. -/
inductive FetchOutcome where
  | error : FetchOutcome
  | noContent : FetchOutcome
  | content : List Char → FetchOutcome

/-- The batch selection query: entries whose markdown_content is NULL or the
empty string, ordered by visit_time ascending, limited to 10. -/
def selectBatch (db : List EnrichEntry) : List EnrichEntry :=
  (sortByLe (fun a b => decide (a.visit_time ≤ b.visit_time))
      (db.filter (fun e => e.markdown_content == none || e.markdown_content == some []))).take 10

/-- The per-entry UPDATE ... WHERE id = :id of the worker: rewrite the
content of every row carrying the id (the primary key is unique in the real
table). -/
def updateContentById (db : List EnrichEntry) (id0 : Nat) (c : Option (List Char)) :
    List EnrichEntry :=
  db.map (fun e => if e.id = id0 then { e with markdown_content := c } else e)

/-- Processing of one selected entry, outside the selection lock: recompute
the domain from the stored url, skip ignored domains before any fetch, and
otherwise store the crawl result — markdown text on success, the explicit
empty-string marker when the crawl yielded no usable content, and nothing
at all on a crawl error. -/
def applyEnrichEntry (patterns : List (List Char)) (netloc : List Char → List Char)
    (fetch : List Char → FetchOutcome) (db : List EnrichEntry) (e : EnrichEntry) :
    List EnrichEntry :=
  let domain := netloc e.url
  if configIsDomainIgnored patterns domain then db
  else
    match fetch e.url with
    | FetchOutcome.error => db
    | FetchOutcome.noContent => updateContentById db e.id (some [])
    | FetchOutcome.content md => updateContentById db e.id (some md)

/-- One _process_markdown_batch run: select the batch under the lock, then
process each selected entry in turn against the evolving table. -/
def processMarkdownBatch (patterns : List (List Char)) (netloc : List Char → List Char)
    (fetch : List Char → FetchOutcome) (db : List EnrichEntry) : List EnrichEntry :=
  (selectBatch db).foldl (applyEnrichEntry patterns netloc fetch) db

/-- n consecutive batches of update_missing_markdown_periodically (each with
its own fetch outcomes). -/
def runEnrichment (patterns : List (List Char)) (netloc : List Char → List Char)
    (fetches : List (List Char → FetchOutcome)) (db : List EnrichEntry) : List EnrichEntry :=
  match fetches with
  | [] => db
  | f :: fs => runEnrichment patterns netloc fs (processMarkdownBatch patterns netloc f db)

/-! ## app/page_reader.py: the HTML-to-text pipeline

clean_html first deletes, with re.sub over the raw text, script blocks,
style blocks, meta tags, HTML comments, link tags, svg blocks and
base64-embedded img tags, then re-serialises through BeautifulSoup with the
media elements removed (an external collaborator, modelled as the soup
parameter); html_to_markdown then runs the markdownify converter (the
mdify parameter) and clean_whitespace over the result.

The seven regular expressions are embedded as explicit matchers returning
the length such a pattern consumes at the current position; re.sub scans
left to right, replaces each non-overlapping match by nothing and continues
after it. -/

/-- One expected character; returns the consumed length and the rest. -/
def charM (c : Char) : List Char → Option (Nat × List Char)
  | [] => none
  | x :: r => if x = c then some (1, r) else none

/-- A literal, compared case-insensitively (the pattern is given in lower
case); the IGNORECASE flag of the six patterns that carry it. -/
def litCIM : List Char → List Char → Option (Nat × List Char)
  | [], s => some (0, s)
  | _ :: _, [] => none
  | p :: ps, c :: r =>
    if c.toLower = p then (litCIM ps r).map (fun q => (q.1 + 1, q.2)) else none

/-- A case-sensitive literal (the base64 img pattern has no IGNORECASE). -/
def litM : List Char → List Char → Option (Nat × List Char)
  | [], s => some (0, s)
  | _ :: _, [] => none
  | p :: ps, c :: r =>
    if c = p then (litM ps r).map (fun q => (q.1 + 1, q.2)) else none

/-- Greedy run of characters satisfying p (bracketed character classes with
a star); returns its length and the rest. -/
def spanCount (p : Char → Bool) : List Char → Nat × List Char
  | [] => (0, [])
  | c :: r => if p c then (let q := spanCount p r; (q.1 + 1, q.2)) else (0, c :: r)

/-- The non-greedy dot-star: find the earliest position from which endM
matches, and return the total length up to and including that match. -/
def findEndFrom (endM : List Char → Option Nat) : List Char → Option Nat
  | [] => endM []
  | c :: r =>
    match endM (c :: r) with
    | some n => some n
    | none => (findEndFrom endM r).map (fun n => n + 1)

/-- Greedy one-or-more run with backtracking: try the longest run first (at
most max characters, all already known to satisfy the run class), then
shorter ones down to one, continuing with cont after the run. -/
def tryGreedy (cont : List Char → Option Nat) (s : List Char) : Nat → Option Nat
  | 0 => none
  | k + 1 =>
    match cont (s.drop (k + 1)) with
    | some n => some (k + 1 + n)
    | none => tryGreedy cont s k

/-- The tail of the script pattern: slash, spaces, the word script, spaces,
closing angle bracket. -/
def endTagM (word : List Char) (s : List Char) : Option Nat := do
  let (a, s1) ← charM '/' s
  let (b, s2) := spanCount (fun c => c = ' ') s1
  let (c, s3) ← litCIM word s2
  let (d, s4) := spanCount (fun c => c = ' ') s3
  let (e, _) ← charM '>' s4
  return a + b + c + d + e

/-- SCRIPT_PATTERN and STYLE_PATTERN: open angle bracket, spaces, the word,
a non-greedy body, the closing tag. -/
def blockTagM (word : List Char) (s : List Char) : Option Nat := do
  let (a, s1) ← charM '<' s
  let (b, s2) := spanCount (fun c => c = ' ') s1
  let (c, s3) ← litCIM word s2
  let d ← findEndFrom (endTagM word) s3
  return a + b + c + d

/-- META_PATTERN and LINK_PATTERN: open angle bracket, spaces, the word, a
non-greedy body up to the first closing angle bracket. -/
def simpleTagM (word : List Char) (s : List Char) : Option Nat := do
  let (a, s1) ← charM '<' s
  let (b, s2) := spanCount (fun c => c = ' ') s1
  let (c, s3) ← litCIM word s2
  let d ← findEndFrom (fun t => (charM '>' t).map (fun q => q.1)) s3
  return a + b + c + d

/-- COMMENT_PATTERN: open angle bracket, spaces, bang dash dash, non-greedy
body, dash dash, spaces, closing angle bracket. -/
def commentM (s : List Char) : Option Nat := do
  let (a, s1) ← charM '<' s
  let (b, s2) := spanCount (fun c => c = ' ') s1
  let (c, s3) ← litCIM ['!', '-', '-'] s2
  let d ← findEndFrom
    (fun t => do
      let (x, t1) ← litCIM ['-', '-'] t
      let (y, t2) := spanCount (fun c => c = ' ') t1
      let (z, _) ← charM '>' t2
      return x + y + z) s3
  return a + b + c + d

/-- SVG_PATTERN: the svg open tag with its attributes (no closing angle
bracket inside), a non-greedy body, the literal closing svg tag. -/
def svgM (s : List Char) : Option Nat := do
  let (a, s1) ← litCIM "<svg".toList s
  let (b, s2) := spanCount (fun c => c ≠ '>') s1
  let (c, s3) ← charM '>' s2
  let d ← findEndFrom (fun t => (litCIM "</svg>".toList t).map (fun q => q.1)) s3
  return a + b + c + d

/-- The part of BASE64_IMG_PATTERN after the one-or-more attribute run: the
src attribute with a base64 data url, the remaining attributes, the closing
angle bracket.  All segment classes exclude their own terminator, so no
further backtracking arises. -/
def base64TailM (s2 : List Char) : Option Nat := do
  let (b, s3) ← litM "src=\"data:image/".toList s2
  let (c, s4) := spanCount (fun c => c ≠ ';') s3
  if c = 0 then none
  else do
    let (d, s5) ← litM ";base64,".toList s4
    let (e, s6) := spanCount (fun c => c ≠ '"') s5
    if e = 0 then none
    else do
      let (f, s7) ← charM '"' s6
      let (g, s8) := spanCount (fun c => c ≠ '>') s7
      let (h, _) ← charM '>' s8
      return b + c + d + e + f + g + h

/-- BASE64_IMG_PATTERN (case-sensitive): the img opener, a greedy
one-or-more run of non-close characters with backtracking, then the base64
src tail. -/
def base64ImgM (s : List Char) : Option Nat := do
  let (a, s1) ← litM "<img".toList s
  let maxRun := (spanCount (fun c => c ≠ '>') s1).1
  let n ← tryGreedy base64TailM s1 maxRun
  return a + n

/-- re.sub of one pattern with the empty replacement: scan left to right,
drop each match, continue right after it.  The fuel (instantiated with the
text length, which the scan never exceeds since every match consumes at
least one character) keeps the recursion structural. -/
def reSubFuel (m : List Char → Option Nat) : Nat → List Char → List Char
  | 0, s => s
  | _, [] => []
  | fuel + 1, c :: r =>
    match m (c :: r) with
    | some (n + 1) => reSubFuel m fuel ((c :: r).drop (n + 1))
    | _ => c :: reSubFuel m fuel r

/-- re.sub with the empty replacement. -/
def reSub (m : List Char → Option Nat) (s : List Char) : List Char := reSubFuel m s.length s

/-- The seven re.sub passes of clean_html, in source order. -/
def regexStripAll (html : List Char) : List Char :=
  let h1 := reSub (blockTagM "script".toList) html
  let h2 := reSub (blockTagM "style".toList) h1
  let h3 := reSub (simpleTagM "meta".toList) h2
  let h4 := reSub commentM h3
  let h5 := reSub (simpleTagM "link".toList) h4
  let h6 := reSub svgM h5
  reSub base64ImgM h6

/-- PageReader.clean_html: empty input short-circuits to empty; otherwise
the regex passes run and the result goes through BeautifulSoup with the
media elements removed (the external soup parameter; a parse failure that
the except branch turns into an empty string is a soup returning empty). -/
def cleanHtml (soup : List Char → List Char) (html : List Char) : List Char :=
  if html.isEmpty then [] else soup (regexStripAll html)

/-- The whitespace characters Python's str.strip, str.rstrip and
str.isspace agree on for the ASCII range. -/
def pyIsSpaceChar (c : Char) : Bool :=
  c = ' ' || c = '\t' || c = '\n' || c = '\x0d' || c = '\x0b' || c = '\x0c'

/-- Python str.isspace: non-empty and all whitespace. -/
def pyIsSpaceStr (l : List Char) : Bool := !l.isEmpty && l.all pyIsSpaceChar

/-- Python str.rstrip with no argument. -/
def rstripChars (l : List Char) : List Char := (l.reverse.dropWhile pyIsSpaceChar).reverse

/-- Python str.strip with no argument. -/
def stripChars (l : List Char) : List Char := rstripChars (l.dropWhile pyIsSpaceChar)

/-- Emit a run of pending newlines, collapsed to two when it had three or
more (the n-or-more-newlines regex of clean_whitespace). -/
def emitNLRun (n : Nat) : List Char := if n ≥ 3 then ['\n', '\n'] else List.replicate n '\n'

/-- Collapse every run of three or more newlines to exactly two. -/
def collapseNLAux (pending : Nat) : List Char → List Char
  | [] => emitNLRun pending
  | c :: r =>
    if c = '\n' then collapseNLAux (pending + 1) r
    else emitNLRun pending ++ c :: collapseNLAux 0 r

/-- The line boundaries Python str.splitlines recognises, with the carriage
return + newline pair handled as one boundary by the splitter itself. -/
def isLineBoundary (c : Char) : Bool :=
  c = '\n' || c = '\x0d' || c = '\x0b' || c = '\x0c' ||
    c = '\x1c' || c = '\x1d' || c = '\x1e' || c = '\x85' || c = '\u2028' || c = '\u2029'

/-- Python str.splitlines (keepends false). -/
def splitLinesAux (acc : List Char) : List Char → List (List Char)
  | [] => if acc.isEmpty then [] else [acc.reverse]
  | '\x0d' :: '\n' :: r => acc.reverse :: splitLinesAux [] r
  | c :: r =>
    if isLineBoundary c then acc.reverse :: splitLinesAux [] r
    else splitLinesAux (c :: acc) r

/-- PageReader.clean_whitespace: collapse long newline runs, right-trim
every line, and trim the whole result. -/
def cleanWhitespace (text : List Char) : List Char :=
  if text.isEmpty then []
  else
    let c1 := collapseNLAux 0 text
    let c2 := List.intercalate ['\n'] ((splitLinesAux [] c1).map rstripChars)
    stripChars c2

/-- PageReader.html_to_markdown: clean the HTML (empty result means no
usable content), convert with markdownify (the mdify parameter covers the
heading, bullet, autolink, form-strip and escaping options), clean the
whitespace, and map an empty or all-whitespace result to None. -/
def htmlToMarkdown (soup mdify : List Char → List Char) (html : List Char) :
    Option (List Char) :=
  let cleaned_html := cleanHtml soup html
  if cleaned_html.isEmpty then none
  else
    let markdown := cleanWhitespace (mdify cleaned_html)
    if markdown.isEmpty || pyIsSpaceStr markdown then none
    else some markdown

/-! # Theorems -/

/-! ## C10: the Config singleton protocol -/

theorem configCtor_initialized (env : ConfigEnv) (p : Option (List Char))
    (st : Option ConfigObj) : ((configCtor env p st).1).initialized = true := by
  unfold configCtor configNew configInit
  cases st with
  | none => simp
  | some c =>
    by_cases h : c.initialized
    · simp [h]
    · simp [h]

/-- C10: constructing Config is idempotent past the first call: whatever
environment and config_path argument a later Config(...) call receives, it
returns the instance the first call produced and leaves the stored
singleton unchanged. -/
theorem C10_config_singleton (env env2 : ConfigEnv) (p q : Option (List Char))
    (st st2 : Option ConfigObj) (c : ConfigObj)
    (h : configCtor env p st = (c, st2)) :
    configCtor env2 q st2 = (c, st2) := by
  have hst2 : st2 = some c := by
    have := congrArg Prod.snd h
    simp [configCtor] at this ⊢
    have hc := congrArg Prod.fst h
    simp [configCtor] at hc
    rw [← this, hc]
  have hcinit : c.initialized = true := by
    have hc := congrArg Prod.fst h
    simp at hc
    rw [← hc]
    exact configCtor_initialized env p st
  subst hst2
  unfold configCtor configNew configInit
  simp [hcinit]

/-- C10 witness: a concrete first construction (no stored instance, a
filesystem with no config file) followed by a second construction with a
different config_path argument returning the identical instance. -/
theorem C10_config_singleton_witness :
    configCtor
      { pathExists := fun _ => false, loadExcluded := fun _ => none }
      (some "other.yaml".toList)
      (configCtor { pathExists := fun _ => false, loadExcluded := fun _ => none } none none).2 =
    ((configCtor { pathExists := fun _ => false, loadExcluded := fun _ => none } none none).1,
      (configCtor { pathExists := fun _ => false, loadExcluded := fun _ => none } none none).2) :=
  C10_config_singleton
    { pathExists := fun _ => false, loadExcluded := fun _ => none }
    { pathExists := fun _ => false, loadExcluded := fun _ => none }
    none (some "other.yaml".toList) none _ _ rfl

/-! ## C3: the subdomain test of the domain filters -/

/-- A pattern with no glob metacharacter: every character is matched
literally by fnmatch. -/
def globLiteralPattern (l : List Char) : Bool :=
  l.all (fun c => c ≠ '*' && c ≠ '?' && c ≠ '[')

theorem compileGlob_literal {l : List Char} {fuel : Nat}
    (hlit : globLiteralPattern l = true) (hfuel : l.length ≤ fuel) :
    compileGlob fuel l = l.map GlobTok.lit := by
  induction l generalizing fuel with
  | nil => cases fuel <;> simp [compileGlob]
  | cons c r ih =>
    cases fuel with
    | zero => simp at hfuel
    | succ f =>
      rw [globLiteralPattern, List.all_cons, Bool.and_eq_true] at hlit
      obtain ⟨hc, hr⟩ := hlit
      simp only [Bool.and_eq_true, decide_eq_true_eq] at hc
      have hc1 : ¬ c = '*' := by tauto
      have hc2 : ¬ c = '?' := by tauto
      have hc3 : ¬ c = '[' := by tauto
      rw [compileGlob, if_neg hc1, if_neg hc2, if_neg hc3]
      simp at hfuel
      rw [ih hr (by omega)]
      simp

theorem tokMatch_lits_self (l : List Char) :
    tokMatch (l.map GlobTok.lit) l = true := by
  induction l with
  | nil => simp [tokMatch]
  | cons c r ih => simp [tokMatch, ih]

theorem tryTails_of_suffix {f : List Char → Bool} {s2 : List Char} (s1 : List Char)
    (h : f s2 = true) : tryTails f (s1 ++ s2) = true := by
  induction s1 with
  | nil =>
    cases s2 with
    | nil => simpa [tryTails] using h
    | cons c cs => simp [tryTails, h]
  | cons c r ih => simp [tryTails, ih]

theorem lowerStr_append (a b : List Char) :
    lowerStr (a ++ b) = lowerStr a ++ lowerStr b := by
  simp [lowerStr]

/-- fnmatch against star-dot-pattern accepts any host of the shape
sub.pattern, for a metacharacter-free pattern. -/
theorem globMatch_star_dot {p : List Char} (s : List Char)
    (hlit : globLiteralPattern p = true) :
    globMatch ('*' :: '.' :: p) (s ++ '.' :: p) = true := by
  unfold globMatch
  have hlen : ('*' :: '.' :: p).length = p.length + 2 := by simp
  rw [hlen]
  rw [show compileGlob (p.length + 2) ('*' :: '.' :: p) =
        GlobTok.star :: compileGlob (p.length + 1) ('.' :: p) by
      rw [compileGlob]; simp]
  have hdot : compileGlob (p.length + 1) ('.' :: p) = ('.' :: p).map GlobTok.lit := by
    apply compileGlob_literal
    · simpa [globLiteralPattern] using hlit
    · simp
  rw [hdot, tokMatch]
  exact tryTails_of_suffix s (tokMatch_lits_self ('.' :: p))

/-- C3 counterexample: sub.example.com is a subdomain of the configured
pattern example.com, yet the check that gates ingestion and enrichment
(Config.is_domain_ignored) returns false on it: the host is never tested
against the star-dot pattern there. -/
theorem C3_counterexample :
    "sub.example.com".toList = "sub".toList ++ '.' :: "example.com".toList ∧
      configIsDomainIgnored ["example.com".toList] "sub.example.com".toList = false := by
  constructor
  · decide
  · decide

/-- C3 amended: the star-dot subdomain test lives in
ReaderConfig.is_domain_excluded, where every host sub.P of a
metacharacter-free pattern P is excluded; the check actually used to gate
ingestion and enrichment, Config.is_domain_ignored, applies plain fnmatch
only and returns false for the spec's own subdomain example. -/
theorem C3_subdomain_amended :
    (∀ (p s : List Char), globLiteralPattern (lowerStr p) = true →
      readerIsDomainExcluded [p] (s ++ '.' :: p) = true) ∧
      configIsDomainIgnored ["example.com".toList] "sub.example.com".toList = false := by
  constructor
  · intro p s hlit
    unfold readerIsDomainExcluded
    simp only [List.any_cons, List.any_nil, Bool.or_false]
    have hlow : lowerStr (s ++ '.' :: p) = lowerStr s ++ '.' :: lowerStr p := by
      rw [lowerStr_append]
      simp [lowerStr, pyToLower]
    apply Bool.or_eq_true_iff.mpr
    right
    rw [show fnmatchMatch (lowerStr (s ++ '.' :: p)) ('*' :: '.' :: lowerStr p) =
          globMatch ('*' :: '.' :: lowerStr p) (lowerStr (s ++ '.' :: p)) from rfl]
    rw [hlow]
    exact globMatch_star_dot (lowerStr s) hlit
  · decide

/-- C3 witness: the amended subdomain guarantee at the spec's example, on the
reader-side filter. -/
theorem C3_subdomain_amended_witness :
    readerIsDomainExcluded ["example.com".toList] ("sub".toList ++ '.' :: "example.com".toList) = true :=
  C3_subdomain_amended.1 "example.com".toList "sub".toList (by decide)

/-! ## C4: the octet-aware comparison for patterns containing a digit -/

/-- C4: the octet rule characterised.  _match_ip_pattern succeeds exactly on
digit-bearing hosts whose dot-split segments stand in one-to-one
correspondence with the pattern's segments (so equal segment counts are
forced), each pattern segment being a lone star or literally equal to the
host segment; a digit-bearing pattern for which the rule succeeds excludes
the domain in is_domain_excluded; and the spec's concrete instances hold,
including the shorter host not matched by the rule. -/
theorem C4_octet_rule :
    (∀ d p : List Char, matchIpPattern d p = true ↔
        hasDigit d = true ∧
          List.Forall₂ (fun a b => b = ['*'] ∨ a = b) (splitDot d) (splitDot p)) ∧
      (∀ (patterns : List (List Char)) (domain pat : List Char), pat ∈ patterns →
        matchIpPattern (lowerStr domain) (lowerStr pat) = true →
        hasDigit (lowerStr pat) = true →
        readerIsDomainExcluded patterns domain = true) ∧
      readerIsDomainExcluded ["192.168.*.*".toList] "192.168.5.9".toList = true ∧
      readerIsDomainExcluded ["192.168.*.*".toList] "192.167.5.9".toList = false ∧
      matchIpPattern "192.168.5".toList "192.168.*.*".toList = false := by
  refine ⟨?_, ?_, by decide, by decide, by decide⟩
  · intro d p
    unfold matchIpPattern
    by_cases hd : hasDigit d = true
    · rw [if_neg (by simp [hd])]
      by_cases hlen : (splitDot d).length = (splitDot p).length
      · rw [if_neg (by simpa using hlen)]
        constructor
        · intro hall
          refine ⟨hd, ?_⟩
          rw [List.forall₂_iff_zip]
          refine ⟨hlen, ?_⟩
          intro a b hab
          have := List.all_eq_true.mp hall (a, b) hab
          simpa using this
        · intro hf
          apply List.all_eq_true.mpr
          intro x hx
          obtain ⟨x1, x2⟩ := x
          have := (List.forall₂_iff_zip.mp hf.2).2 hx
          simpa using this
      · rw [if_pos (by simpa using hlen)]
        constructor
        · intro h
          simp at h
        · intro hf
          exact absurd (List.Forall₂.length_eq hf.2) hlen
    · rw [if_pos (by simpa using hd)]
      constructor
      · intro h
        simp at h
      · intro hf
        exact absurd hf.1 hd
  · intro patterns domain pat hmem hip hdig
    unfold readerIsDomainExcluded
    apply List.any_eq_true.mpr
    refine ⟨pat, hmem, ?_⟩
    simp [hdig, hip]

/-- C4 witness: the characterisation and the exclusion propagation applied
at concrete inputs. -/
theorem C4_octet_rule_witness :
    readerIsDomainExcluded ["10.*.*.*".toList] "10.1.2.3".toList = true ∧
      (matchIpPattern "192.168.5.9".toList "192.168.*.*".toList = true ↔
        hasDigit "192.168.5.9".toList = true ∧
          List.Forall₂ (fun a b => b = ['*'] ∨ a = b)
            (splitDot "192.168.5.9".toList) (splitDot "192.168.*.*".toList)) :=
  ⟨C4_octet_rule.2.1 ["10.*.*.*".toList] "10.1.2.3".toList "10.*.*.*".toList
      (by decide) (by decide) (by decide),
    C4_octet_rule.1 "192.168.5.9".toList "192.168.*.*".toList⟩

/-! ## C1 and C2: watermark advancement across sync cycles -/

theorem getLast_update_self (store : WatermarkStore) (k : List Char) (v : Int) :
    getLastProcessedTimestamp (updateLastProcessedTimestamp store k v) k = v := by
  induction store with
  | nil => simp [updateLastProcessedTimestamp, getLastProcessedTimestamp, List.lookup]
  | cons a rest ih =>
    obtain ⟨a1, a2⟩ := a
    rw [updateLastProcessedTimestamp]
    by_cases h : a1 = k
    · subst h
      simp [getLastProcessedTimestamp, List.lookup]
    · rw [if_neg h]
      have hb : (k == a1) = false := by simpa using fun e => h e.symm
      simpa [getLastProcessedTimestamp, List.lookup, hb] using ih

theorem getLast_update_other (store : WatermarkStore) (k k' : List Char) (v : Int)
    (h : k' ≠ k) :
    getLastProcessedTimestamp (updateLastProcessedTimestamp store k v) k' =
      getLastProcessedTimestamp store k' := by
  have hb : (k' == k) = false := by simpa using h
  induction store with
  | nil =>
    simp [updateLastProcessedTimestamp, getLastProcessedTimestamp, List.lookup, hb]
  | cons a rest ih =>
    obtain ⟨a1, a2⟩ := a
    rw [updateLastProcessedTimestamp]
    by_cases ha : a1 = k
    · subst ha
      simp [getLastProcessedTimestamp, List.lookup, hb]
    · rw [if_neg ha]
      by_cases hk : a1 = k'
      · subst hk
        simp [getLastProcessedTimestamp, List.lookup]
      · have hb2 : (k' == a1) = false := by simpa using fun e => hk e.symm
        simpa [getLastProcessedTimestamp, List.lookup, hb2] using ih

/-- The source key a cycle's watermark row is stored under. -/
def SyncCycle.sourceKey : SyncCycle → List Char
  | SyncCycle.history _ _ _ => historySchedulerKey
  | SyncCycle.bookmarks _ _ _ => bookmarksKey
  | SyncCycle.initial _ _ _ => initialHistoryKey

/-- Every cycle leaves the watermark table unchanged or overwrites its own
source key with its pre-fetch now. -/
theorem stepSync_store_shape (patterns : List (List Char)) (netloc : List Char → List Char)
    (c : SyncCycle) (s : SyncState) :
    (stepSync patterns netloc c s).store = s.store ∨
      (stepSync patterns netloc c s).store =
        updateLastProcessedTimestamp s.store c.sourceKey c.now := by
  cases c with
  | history n raw ok =>
    rw [stepSync, updateHistoryCycle]
    by_cases he : (filterNewHistory patterns netloc
        (getLastProcessedTimestamp s.store historySchedulerKey) raw []).isEmpty
    · rw [if_pos he]
      right
      rfl
    · rw [if_neg he]
      by_cases hok : ok
      · subst hok
        right
        rfl
      · rw [if_neg (by simpa using hok)]
        left
        rfl
  | bookmarks n raw ok =>
    rw [stepSync, updateBookmarksCycle]
    by_cases he : (filterNewBookmarks patterns netloc
        (getLastProcessedTimestamp s.store bookmarksKey) raw []).isEmpty
    · rw [if_pos he]
      right
      rfl
    · rw [if_neg he]
      by_cases hok : ok
      · subst hok
        right
        rfl
      · rw [if_neg (by simpa using hok)]
        left
        rfl
  | initial n raw insOk =>
    rw [stepSync, processBrowserHistoryCycle]
    by_cases he : (raw.filter (fun e =>
        decide (e.t > getLastProcessedTimestamp s.store initialHistoryKey))).isEmpty
    · rw [if_pos he]
      left
      rfl
    · rw [if_neg he]
      right
      rfl

theorem getLast_stepSync_ge (patterns : List (List Char)) (netloc : List Char → List Char)
    (c : SyncCycle) (s : SyncState) (k : List Char)
    (hnow : getLastProcessedTimestamp s.store k ≤ c.now) :
    getLastProcessedTimestamp s.store k ≤
      getLastProcessedTimestamp (stepSync patterns netloc c s).store k := by
  rcases stepSync_store_shape patterns netloc c s with h | h
  · rw [h]
  · rw [h]
    by_cases hk : k = c.sourceKey
    · subst hk
      rw [getLast_update_self]
      exact hnow
    · rw [getLast_update_other _ _ _ _ hk]

theorem getLast_stepSync_le (patterns : List (List Char)) (netloc : List Char → List Char)
    (c : SyncCycle) (s : SyncState) (k : List Char) (bound : Int)
    (h1 : getLastProcessedTimestamp s.store k ≤ bound) (h2 : c.now ≤ bound) :
    getLastProcessedTimestamp (stepSync patterns netloc c s).store k ≤ bound := by
  rcases stepSync_store_shape patterns netloc c s with h | h
  · rw [h]
    exact h1
  · rw [h]
    by_cases hk : k = c.sourceKey
    · subst hk
      rw [getLast_update_self]
      exact h2
    · rw [getLast_update_other _ _ _ _ hk]
      exact h1

theorem runSync_monotone (patterns : List (List Char)) (netloc : List Char → List Char)
    (cycles : List SyncCycle) (s0 : SyncState)
    (hsorted : (cycles.map SyncCycle.now).Pairwise (fun a b => a ≤ b))
    (hinit : ∀ (k : List Char) (n : Int), n ∈ cycles.map SyncCycle.now →
      getLastProcessedTimestamp s0.store k ≤ n) :
    ∀ k : List Char,
      getLastProcessedTimestamp s0.store k ≤
        getLastProcessedTimestamp (runSync patterns netloc cycles s0).store k := by
  induction cycles generalizing s0 with
  | nil => intro k; rw [runSync]
  | cons c cs ih =>
    intro k
    rw [runSync]
    have hstep : getLastProcessedTimestamp s0.store k ≤
        getLastProcessedTimestamp (stepSync patterns netloc c s0).store k :=
      getLast_stepSync_ge patterns netloc c s0 k
        (hinit k c.now (by simp))
    refine le_trans hstep (ih (stepSync patterns netloc c s0) ?_ ?_ k)
    · exact (List.pairwise_cons.mp (by simpa using hsorted)).2
    · intro k' n hn
      have hcle : c.now ≤ n :=
        (List.pairwise_cons.mp (by simpa using hsorted)).1 n hn
      exact getLast_stepSync_le patterns netloc c s0 k' n
        (hinit k' n (by simp [hn])) hcle

/-- C1 counterexample: a process_browser_history cycle in which the single
surviving entry's insert fails and rolls back (no row is committed), yet
the watermark for its source key is still advanced from 0 to the cycle's
pre-fetch now: an insert error does not leave the watermark unchanged
there. -/
theorem C1_counterexample :
    (processBrowserHistoryCycle [] (fun _ => "a.com".toList) 10
        [{ t := 5, url := "http://a.com/x".toList, title := "t".toList }]
        (fun _ => false)
        { history := [], bookmarks := [], store := [] }).history = [] ∧
      getLastProcessedTimestamp
        (processBrowserHistoryCycle [] (fun _ => "a.com".toList) 10
          [{ t := 5, url := "http://a.com/x".toList, title := "t".toList }]
          (fun _ => false)
          { history := [], bookmarks := [], store := [] }).store initialHistoryKey = 10 := by
  constructor
  · decide
  · decide

/-- C1 amended: watermarks never decrease across any sequence of sync cycles
whose pre-fetch nows are nondecreasing and not behind the initial store.
For the scheduler's history and bookmarks cycles a failed batch commit
leaves state and watermark untouched, and a changed watermark means it was
set to the cycle's pre-fetch now with the batch either committed or empty.
The startup process_browser_history cycle, however, advances the watermark
to now whenever any fetched entry was newer, regardless of per-entry insert
failures. -/
theorem C1_watermark_amended :
    (∀ (patterns : List (List Char)) (netloc : List Char → List Char)
        (cycles : List SyncCycle) (s0 : SyncState),
      (cycles.map SyncCycle.now).Pairwise (fun a b => a ≤ b) →
      (∀ (k : List Char) (n : Int), n ∈ cycles.map SyncCycle.now →
        getLastProcessedTimestamp s0.store k ≤ n) →
      ∀ k : List Char,
        getLastProcessedTimestamp s0.store k ≤
          getLastProcessedTimestamp (runSync patterns netloc cycles s0).store k) ∧
    (∀ (patterns : List (List Char)) (netloc : List Char → List Char)
        (now : Int) (raw : List RawVisit) (s : SyncState),
      (filterNewHistory patterns netloc
          (getLastProcessedTimestamp s.store historySchedulerKey) raw []).isEmpty = false →
      updateHistoryCycle patterns netloc now raw false s = s) ∧
    (∀ (patterns : List (List Char)) (netloc : List Char → List Char)
        (now : Int) (raw : List RawBookmark) (s : SyncState),
      (filterNewBookmarks patterns netloc
          (getLastProcessedTimestamp s.store bookmarksKey) raw []).isEmpty = false →
      updateBookmarksCycle patterns netloc now raw false s = s) ∧
    (∀ (patterns : List (List Char)) (netloc : List Char → List Char)
        (now : Int) (raw : List RawVisit) (commitOk : Bool) (s : SyncState),
      (updateHistoryCycle patterns netloc now raw commitOk s).store ≠ s.store →
      (updateHistoryCycle patterns netloc now raw commitOk s).store =
          updateLastProcessedTimestamp s.store historySchedulerKey now ∧
        (commitOk = true ∨
          (filterNewHistory patterns netloc
            (getLastProcessedTimestamp s.store historySchedulerKey) raw []).isEmpty = true)) ∧
    (∀ (patterns : List (List Char)) (netloc : List Char → List Char)
        (now : Int) (raw : List RawBookmark) (commitOk : Bool) (s : SyncState),
      (updateBookmarksCycle patterns netloc now raw commitOk s).store ≠ s.store →
      (updateBookmarksCycle patterns netloc now raw commitOk s).store =
          updateLastProcessedTimestamp s.store bookmarksKey now ∧
        (commitOk = true ∨
          (filterNewBookmarks patterns netloc
            (getLastProcessedTimestamp s.store bookmarksKey) raw []).isEmpty = true)) ∧
    (∀ (patterns : List (List Char)) (netloc : List Char → List Char)
        (now : Int) (raw : List InitialRawVisit)
        (insertOk : InitialRawVisit → Bool) (s : SyncState),
      (raw.filter (fun e =>
          decide (e.t > getLastProcessedTimestamp s.store initialHistoryKey))).isEmpty = false →
      (processBrowserHistoryCycle patterns netloc now raw insertOk s).store =
        updateLastProcessedTimestamp s.store initialHistoryKey now) := by
  refine ⟨runSync_monotone, ?_, ?_, ?_, ?_, ?_⟩
  · intro patterns netloc now raw s hne
    rw [updateHistoryCycle]
    rw [if_neg (by simp [hne])]
    rfl
  · intro patterns netloc now raw s hne
    rw [updateBookmarksCycle]
    rw [if_neg (by simp [hne])]
    rfl
  · intro patterns netloc now raw commitOk s hchanged
    rw [updateHistoryCycle] at hchanged ⊢
    by_cases he : (filterNewHistory patterns netloc
        (getLastProcessedTimestamp s.store historySchedulerKey) raw []).isEmpty
    · rw [if_pos he] at hchanged ⊢
      exact ⟨rfl, Or.inr he⟩
    · rw [if_neg he] at hchanged ⊢
      by_cases hok : commitOk
      · subst hok
        simp only [if_pos rfl] at hchanged ⊢
        exact ⟨rfl, Or.inl (by simp)⟩
      · rw [if_neg (by simpa using hok)] at hchanged
        exact absurd rfl hchanged
  · intro patterns netloc now raw commitOk s hchanged
    rw [updateBookmarksCycle] at hchanged ⊢
    by_cases he : (filterNewBookmarks patterns netloc
        (getLastProcessedTimestamp s.store bookmarksKey) raw []).isEmpty
    · rw [if_pos he] at hchanged ⊢
      exact ⟨rfl, Or.inr he⟩
    · rw [if_neg he] at hchanged ⊢
      by_cases hok : commitOk
      · subst hok
        simp only [if_pos rfl] at hchanged ⊢
        exact ⟨rfl, Or.inl (by simp)⟩
      · rw [if_neg (by simpa using hok)] at hchanged
        exact absurd rfl hchanged
  · intro patterns netloc now raw insertOk s hne
    rw [processBrowserHistoryCycle]
    rw [if_neg (by simp [hne])]

/-- C1 witness: the amended statement exercised on a concrete two-cycle run
(a scheduler history cycle then a startup cycle, nondecreasing nows over an
empty store), on a concrete failed scheduler commit, and on concrete
changed-watermark and newer-entries instances. -/
theorem C1_watermark_amended_witness :
    getLastProcessedTimestamp
        (runSync [] (fun _ => "a.com".toList)
          [SyncCycle.history 5 [] true,
            SyncCycle.initial 7 [] (fun _ => true)]
          { history := [], bookmarks := [], store := [] }).store historySchedulerKey ≥ 0 ∧
      updateHistoryCycle [] (fun _ => "a.com".toList) 9
          [{ t := some 3, url := "http://a.com/x".toList, title := "t".toList }] false
          { history := [], bookmarks := [], store := [] } =
        { history := [], bookmarks := [], store := [] } := by
  constructor
  · have h0 : ∀ k : List Char,
        getLastProcessedTimestamp
          ({ history := [], bookmarks := [], store := [] } : SyncState).store k = 0 := by
      intro k
      rfl
    have := C1_watermark_amended.1 [] (fun _ => "a.com".toList)
      [SyncCycle.history 5 [] true, SyncCycle.initial 7 [] (fun _ => true)]
      { history := [], bookmarks := [], store := [] }
      (by simp [SyncCycle.now])
      (by
        intro k n hn
        rw [h0 k]
        simp [SyncCycle.now] at hn
        rcases hn with rfl | rfl
        · decide
        · decide)
      historySchedulerKey
    calc (0 : Int) = getLastProcessedTimestamp
          ({ history := [], bookmarks := [], store := [] } : SyncState).store
          historySchedulerKey := (h0 historySchedulerKey).symm
      _ ≤ _ := this
  · exact C1_watermark_amended.2.1 [] (fun _ => "a.com".toList) 9
      [{ t := some 3, url := "http://a.com/x".toList, title := "t".toList }]
      { history := [], bookmarks := [], store := [] }
      (by decide)

/-- C2 counterexample: a process_browser_history cycle in which no fetched
entry is newer than the watermark leaves the watermark untouched instead of
advancing it to the cycle's recorded now (60): the claim fails for the
startup sync cycle. -/
theorem C2_counterexample :
    processBrowserHistoryCycle [] (fun _ => "a.com".toList) 60
        [{ t := 40, url := "http://a.com/x".toList, title := "t".toList }]
        (fun _ => true)
        { history := [], bookmarks := [], store := [(initialHistoryKey, 50)] } =
      { history := [], bookmarks := [], store := [(initialHistoryKey, 50)] } ∧
      getLastProcessedTimestamp
          (processBrowserHistoryCycle [] (fun _ => "a.com".toList) 60
            [{ t := 40, url := "http://a.com/x".toList, title := "t".toList }]
            (fun _ => true)
            { history := [], bookmarks := [], store := [(initialHistoryKey, 50)] }).store
          initialHistoryKey ≠ 60 := by
  constructor
  · decide
  · decide

/-- C2 amended: the scheduler's history and bookmarks cycles do advance the
watermark to the cycle's now when nothing survives filtering (none newer or
all excluded), committing nothing.  The startup process_browser_history
cycle advances the watermark only when at least one fetched entry is newer
than the watermark — it does so even when every newer entry is then
domain-excluded (committing nothing), but leaves the watermark untouched
when none are newer. -/
theorem C2_empty_cycle_amended :
    (∀ (patterns : List (List Char)) (netloc : List Char → List Char)
        (now : Int) (raw : List RawVisit) (commitOk : Bool) (s : SyncState),
      (filterNewHistory patterns netloc
          (getLastProcessedTimestamp s.store historySchedulerKey) raw []).isEmpty = true →
      (updateHistoryCycle patterns netloc now raw commitOk s).store =
          updateLastProcessedTimestamp s.store historySchedulerKey now ∧
        (updateHistoryCycle patterns netloc now raw commitOk s).history = s.history) ∧
    (∀ (patterns : List (List Char)) (netloc : List Char → List Char)
        (now : Int) (raw : List RawBookmark) (commitOk : Bool) (s : SyncState),
      (filterNewBookmarks patterns netloc
          (getLastProcessedTimestamp s.store bookmarksKey) raw []).isEmpty = true →
      (updateBookmarksCycle patterns netloc now raw commitOk s).store =
          updateLastProcessedTimestamp s.store bookmarksKey now ∧
        (updateBookmarksCycle patterns netloc now raw commitOk s).bookmarks = s.bookmarks) ∧
    (∀ (patterns : List (List Char)) (netloc : List Char → List Char)
        (now : Int) (raw : List InitialRawVisit)
        (insertOk : InitialRawVisit → Bool) (s : SyncState),
      (raw.filter (fun e =>
          decide (e.t > getLastProcessedTimestamp s.store initialHistoryKey))).isEmpty = true →
      processBrowserHistoryCycle patterns netloc now raw insertOk s = s) ∧
    (∀ (patterns : List (List Char)) (netloc : List Char → List Char)
        (now : Int) (raw : List InitialRawVisit)
        (insertOk : InitialRawVisit → Bool) (s : SyncState),
      (raw.filter (fun e =>
          decide (e.t > getLastProcessedTimestamp s.store initialHistoryKey))).isEmpty = false →
      (∀ e ∈ raw, configIsDomainIgnored patterns (netloc e.url) = true) →
      (processBrowserHistoryCycle patterns netloc now raw insertOk s).store =
          updateLastProcessedTimestamp s.store initialHistoryKey now ∧
        (processBrowserHistoryCycle patterns netloc now raw insertOk s).history = s.history) := by
  refine ⟨?_, ?_, ?_, ?_⟩
  · intro patterns netloc now raw commitOk s he
    rw [updateHistoryCycle, if_pos he]
    exact ⟨rfl, rfl⟩
  · intro patterns netloc now raw commitOk s he
    rw [updateBookmarksCycle, if_pos he]
    exact ⟨rfl, rfl⟩
  · intro patterns netloc now raw insertOk s he
    rw [processBrowserHistoryCycle, if_pos he]
  · intro patterns netloc now raw insertOk s hne hign
    rw [processBrowserHistoryCycle, if_neg (by simp [hne])]
    refine ⟨rfl, ?_⟩
    simp only
    have : ∀ (l : List InitialRawVisit) (db : List HistoryRow), (∀ e ∈ l, e ∈ raw) →
        l.foldl (fun db e =>
          if configIsDomainIgnored patterns (netloc e.url) then db
          else if insertOk e then
            db ++ [{ url := e.url, title := e.title, visit_time := e.t,
                     domain := netloc e.url, markdown_content := none : HistoryRow }]
          else db) db = db := by
      intro l
      induction l with
      | nil => intro db _; rfl
      | cons e rest ih =>
        intro db hsub
        rw [List.foldl_cons]
        rw [if_pos (hign e (hsub e (by simp)))]
        exact ih db (fun x hx => hsub x (by simp [hx]))
    exact this _ s.history (fun e he => (List.mem_filter.mp he).1)

/-- C2 witness: the amended statement at concrete cycles — an all-excluded
scheduler history cycle still advancing the watermark, and a nothing-newer
startup cycle leaving state unchanged. -/
theorem C2_empty_cycle_amended_witness :
    (updateHistoryCycle ["a.com".toList] (fun _ => "a.com".toList) 20
        [{ t := some 6, url := "http://a.com/x".toList, title := "t".toList }] true
        { history := [], bookmarks := [], store := [] }).store =
      updateLastProcessedTimestamp [] historySchedulerKey 20 ∧
    processBrowserHistoryCycle [] (fun _ => "a.com".toList) 60
        [{ t := 40, url := "http://a.com/x".toList, title := "t".toList }]
        (fun _ => true)
        { history := [], bookmarks := [], store := [(initialHistoryKey, 50)] } =
      { history := [], bookmarks := [], store := [(initialHistoryKey, 50)] } :=
  ⟨(C2_empty_cycle_amended.1 ["a.com".toList] (fun _ => "a.com".toList) 20
      [{ t := some 6, url := "http://a.com/x".toList, title := "t".toList }] true
      { history := [], bookmarks := [], store := [] } (by decide)).1,
    C2_empty_cycle_amended.2.2.1 [] (fun _ => "a.com".toList) 60
      [{ t := 40, url := "http://a.com/x".toList, title := "t".toList }]
      (fun _ => true)
      { history := [], bookmarks := [], store := [(initialHistoryKey, 50)] } (by decide)⟩

/-! ## C5 and C6: the ranked basic search -/

theorem tdiv_eq_zero_of_nonneg_of_lt {a b : Int} (h1 : 0 ≤ a) (h2 : a < b) :
    a.tdiv b = 0 := by
  rw [Int.tdiv_eq_ediv h1 (le_trans h1 (le_of_lt h2))]
  exact Int.ediv_eq_zero_of_lt h1 h2

/-- For every row strictly older than the query instant the recency
multiplier collapses to 1: the SQL divides the two epoch integers with
integer division, which truncates to 0. -/
theorem recencyFactor_eq_one {nowEpoch visit : Int} (h1 : 0 ≤ visit) (h2 : visit < nowEpoch) :
    recencyFactor nowEpoch visit = 1 := by
  rw [recencyFactor, tdiv_eq_zero_of_nonneg_of_lt h1 h2]
  norm_num

theorem finalRank_eq_baseScore {term : List Char} {nowEpoch : Int} {r : SearchRow}
    (h1 : 0 ≤ r.visit_time) (h2 : r.visit_time < nowEpoch) :
    finalRank term nowEpoch r = baseScore term r := by
  rw [finalRank, recencyFactor_eq_one h1 h2, mul_one]

/-- C5: with search term hello and domain filter b.com, a row on domain
a.com whose title contains the term is nevertheless returned: SQL operator
precedence attaches the domain (and date) predicates only to the
content-match disjunct, so a title match bypasses them entirely. -/
theorem C5_domain_filter_bypassed :
    searchHistoryBasic (fun _ => false) 1000 "hello".toList (some "b.com".toList) none none
        [{ id := 1, url := "http://a.com/p".toList, title := "hello world".toList,
           visit_time := 100, domain := "a.com".toList, markdown_content := none }] =
      [{ id := 1, url := "http://a.com/p".toList, title := "hello world".toList,
         visit_time := 100, domain := "a.com".toList, markdown_content := none }] ∧
      ("a.com".toList : List Char) ≠ "b.com".toList := by
  constructor
  · have hrank : finalRank "hello".toList 1000
        { id := 1, url := "http://a.com/p".toList, title := "hello world".toList,
          visit_time := 100, domain := "a.com".toList, markdown_content := none } = 3 := by
      rw [finalRank_eq_baseScore (by decide) (by decide)]
      rw [baseScore]
      rw [if_neg (by decide), if_pos (by decide)]
    have hpos : decide ((0 : ℚ) < finalRank "hello".toList 1000
        { id := 1, url := "http://a.com/p".toList, title := "hello world".toList,
          visit_time := 100, domain := "a.com".toList, markdown_content := none }) = true := by
      apply decide_eq_true
      rw [hrank]
      norm_num
    simp only [searchHistoryBasic]
    rw [show List.filter (whereClause (fun _ => false) "hello".toList
          (some "b.com".toList) none none)
        [{ id := 1, url := "http://a.com/p".toList, title := "hello world".toList,
           visit_time := 100, domain := "a.com".toList, markdown_content := none }] =
        [{ id := 1, url := "http://a.com/p".toList, title := "hello world".toList,
           visit_time := 100, domain := "a.com".toList, markdown_content := none }] by decide]
    simp only [List.filter_cons, List.filter_nil, hpos, if_true]
    simp [sortByLe, insertByLe, List.take]
  · decide

/-! For C6 the two tied rows of the counterexample. -/

def c6RowOld : SearchRow :=
  { id := 1, url := "http://a.com/1".toList, title := "say hello one".toList,
    visit_time := 100, domain := "a.com".toList, markdown_content := none }

def c6RowNew : SearchRow :=
  { id := 2, url := "http://a.com/2".toList, title := "say hello two".toList,
    visit_time := 200, domain := "a.com".toList, markdown_content := none }

theorem c6_baseScore_old : baseScore "hello".toList c6RowOld = 2 := by
  rw [baseScore]
  rw [if_neg (by decide), if_neg (by decide), if_pos (by decide)]

theorem c6_baseScore_new : baseScore "hello".toList c6RowNew = 2 := by
  rw [baseScore]
  rw [if_neg (by decide), if_neg (by decide), if_pos (by decide)]

theorem c6_rank_old : finalRank "hello".toList 1000 c6RowOld = 2 := by
  rw [finalRank_eq_baseScore (by decide) (by decide), c6_baseScore_old]

theorem c6_rank_new : finalRank "hello".toList 1000 c6RowNew = 2 := by
  rw [finalRank_eq_baseScore (by decide) (by decide), c6_baseScore_new]

/-- C6 counterexample: two rows with identical term-containment (both only
contain the term in the title) receive the identical final rank 2, and the
query returns them in table order — the older row first — rather than
breaking the tie by visit_time descending. -/
theorem C6_counterexample :
    searchHistoryBasic (fun _ => false) 1000 "hello".toList none none none
        [c6RowOld, c6RowNew] = [c6RowOld, c6RowNew] ∧
      c6RowOld.visit_time < c6RowNew.visit_time ∧
      finalRank "hello".toList 1000 c6RowOld = finalRank "hello".toList 1000 c6RowNew := by
  refine ⟨?_, by decide, by rw [c6_rank_old, c6_rank_new]⟩
  have hposOld : decide ((0 : ℚ) < finalRank "hello".toList 1000 c6RowOld) = true := by
    apply decide_eq_true
    rw [c6_rank_old]
    norm_num
  have hposNew : decide ((0 : ℚ) < finalRank "hello".toList 1000 c6RowNew) = true := by
    apply decide_eq_true
    rw [c6_rank_new]
    norm_num
  have hle : decide (finalRank "hello".toList 1000 c6RowNew ≤
      finalRank "hello".toList 1000 c6RowOld) = true := by
    apply decide_eq_true
    rw [c6_rank_old, c6_rank_new]
  simp only [searchHistoryBasic]
  rw [show List.filter (whereClause (fun _ => false) "hello".toList none none none)
      [c6RowOld, c6RowNew] = [c6RowOld, c6RowNew] by decide]
  simp only [List.filter_cons, List.filter_nil, hposOld, hposNew, if_true]
  simp only [sortByLe, insertByLe, hle, if_true]
  simp [List.take]

/-- C6 amended: basic search returns at most 100 rows ordered by final rank
descending, but rows with identical term-containment classes tie exactly
(for rows older than the query instant the recency multiplier is the
constant 1, by integer division), and the tie is left in table order rather
than broken by visit_time descending. -/
theorem C6_order_amended :
    (∀ (ftsMatch : SearchRow → Bool) (nowEpoch : Int) (term : List Char)
        (domainFilter : Option (List Char)) (startFilter endFilter : Option Int)
        (db : List SearchRow),
      (searchHistoryBasic ftsMatch nowEpoch term domainFilter startFilter endFilter db).length ≤ 100) ∧
    (∀ (ftsMatch : SearchRow → Bool) (nowEpoch : Int) (term : List Char)
        (domainFilter : Option (List Char)) (startFilter endFilter : Option Int)
        (db : List SearchRow),
      (searchHistoryBasic ftsMatch nowEpoch term domainFilter startFilter endFilter db).Pairwise
        (fun a b => finalRank term nowEpoch b ≤ finalRank term nowEpoch a)) ∧
    (∀ (term : List Char) (nowEpoch : Int) (r1 r2 : SearchRow),
      baseScore term r1 = baseScore term r2 →
      0 ≤ r1.visit_time → r1.visit_time < nowEpoch →
      0 ≤ r2.visit_time → r2.visit_time < nowEpoch →
      finalRank term nowEpoch r1 = finalRank term nowEpoch r2) := by
  refine ⟨?_, ?_, ?_⟩
  · intro ftsMatch nowEpoch term domainFilter startFilter endFilter db
    rw [searchHistoryBasic]
    simp
  · intro ftsMatch nowEpoch term domainFilter startFilter endFilter db
    rw [searchHistoryBasic]
    apply List.Pairwise.sublist (List.take_sublist _ _)
    have hp := @pairwise_sortByLe _
      (fun a b => decide (finalRank term nowEpoch b ≤ finalRank term nowEpoch a))
      (List.filter (fun r => decide (0 < finalRank term nowEpoch r))
        (List.filter (whereClause ftsMatch term domainFilter startFilter endFilter) db))
      (by
        intro x y
        rcases le_total (finalRank term nowEpoch y) (finalRank term nowEpoch x) with h | h
        · simp [h]
        · simp [h])
      (by
        intro x y z h1 h2
        simp only [decide_eq_true_eq] at h1 h2 ⊢
        exact le_trans h2 h1)
    exact hp.imp (fun h => by simpa using h)
  · intro term nowEpoch r1 r2 hbase h1 h2 h3 h4
    rw [finalRank_eq_baseScore h1 h2, finalRank_eq_baseScore h3 h4, hbase]

/-- C6 witness: the amended statement exercised at concrete inputs — the
cap and order on the counterexample's table, and the equal-rank consequence
for the two tied rows. -/
theorem C6_order_amended_witness :
    (searchHistoryBasic (fun _ => false) 1000 "hello".toList none none none
        [c6RowOld, c6RowNew]).length ≤ 100 ∧
      finalRank "hello".toList 1000 c6RowOld = finalRank "hello".toList 1000 c6RowNew :=
  ⟨C6_order_amended.1 (fun _ => false) 1000 "hello".toList none none none [c6RowOld, c6RowNew],
    C6_order_amended.2.2 "hello".toList 1000 c6RowOld c6RowNew
      (by rw [c6_baseScore_old, c6_baseScore_new]) (by decide) (by decide) (by decide) (by decide)⟩

/-! ## C7: the enrichment batch selection and the empty-string marker -/

/-- C7 counterexample: a table holding one entry already carrying the
explicit empty-string marker — the batch selection picks it again, so the
selection is not restricted to entries whose content is absent, and marked
entries are re-fetched in later batches. -/
theorem C7_counterexample :
    selectBatch [{ id := 1, url := "http://a.com/x".toList, visit_time := 0,
                   markdown_content := some [] }] =
      [{ id := 1, url := "http://a.com/x".toList, visit_time := 0,
         markdown_content := some [] }] ∧
      ({ id := 1, url := "http://a.com/x".toList, visit_time := 0,
         markdown_content := some [] } : EnrichEntry).markdown_content ≠ none := by
  constructor
  · decide
  · decide

/-- C7 amended: the batch selection picks entries whose content is NULL or
the empty-string marker (at most 10 of them, oldest visit first, all from
the table); a crawl that yields no usable text stores the empty-string
marker, a value distinct from NULL — but since the selection also matches
the marker, an already-marked entry is selected again in a later batch
whenever it is among the ten oldest unfinished entries. -/
theorem C7_batch_selection_amended :
    (∀ (db : List EnrichEntry) (e : EnrichEntry), e ∈ selectBatch db →
      e ∈ db ∧ (e.markdown_content = none ∨ e.markdown_content = some [])) ∧
    (∀ db : List EnrichEntry, (selectBatch db).length ≤ 10) ∧
    (∀ db : List EnrichEntry,
      (selectBatch db).Pairwise (fun a b => a.visit_time ≤ b.visit_time)) ∧
    (∀ (patterns : List (List Char)) (netloc : List Char → List Char)
        (fetch : List Char → FetchOutcome) (db : List EnrichEntry) (e : EnrichEntry),
      configIsDomainIgnored patterns (netloc e.url) = false →
      fetch e.url = FetchOutcome.noContent →
      ∀ x ∈ applyEnrichEntry patterns netloc fetch db e,
        x.id = e.id → x.markdown_content = some []) ∧
    (some ([] : List Char) ≠ (none : Option (List Char))) ∧
    (∀ (db : List EnrichEntry) (e : EnrichEntry), e ∈ db →
      e.markdown_content = some [] → db.length ≤ 10 → e ∈ selectBatch db) := by
  refine ⟨?_, ?_, ?_, ?_, by decide, ?_⟩
  · intro db e he
    rw [selectBatch] at he
    have h1 := List.mem_of_mem_take he
    have h2 := mem_sortByLe.mp h1
    have h3 := List.mem_filter.mp h2
    refine ⟨h3.1, ?_⟩
    simpa using h3.2
  · intro db
    rw [selectBatch]
    simp
  · intro db
    rw [selectBatch]
    apply List.Pairwise.sublist (List.take_sublist _ _)
    have hp := @pairwise_sortByLe _
      (fun a b => decide (a.visit_time ≤ b.visit_time))
      (db.filter (fun e => e.markdown_content == none || e.markdown_content == some []))
      (by
        intro x y
        rcases le_total x.visit_time y.visit_time with h | h
        · simp [h]
        · simp [h])
      (by
        intro x y z h1 h2
        simp only [decide_eq_true_eq] at h1 h2 ⊢
        exact le_trans h1 h2)
    exact hp.imp (fun h => by simpa using h)
  · intro patterns netloc fetch db e hign hfetch x hx hid
    rw [applyEnrichEntry, if_neg (by simp [hign]), hfetch] at hx
    rw [updateContentById] at hx
    obtain ⟨y, hy, hxy⟩ := List.mem_map.mp hx
    by_cases hyid : y.id = e.id
    · rw [if_pos hyid] at hxy
      rw [← hxy]
    · rw [if_neg hyid] at hxy
      rw [← hxy] at hid
      exact absurd hid hyid
  · intro db e he hmark hlen
    rw [selectBatch]
    have hfil : e ∈ db.filter
        (fun e => e.markdown_content == none || e.markdown_content == some []) := by
      apply List.mem_filter.mpr
      exact ⟨he, by simp [hmark]⟩
    have hsort : e ∈ sortByLe (fun a b => decide (a.visit_time ≤ b.visit_time))
        (db.filter (fun e => e.markdown_content == none || e.markdown_content == some [])) :=
      mem_sortByLe.mpr hfil
    have hlenfil : (sortByLe (fun a b => decide (a.visit_time ≤ b.visit_time))
        (db.filter (fun e => e.markdown_content == none || e.markdown_content == some []))).length ≤ 10 := by
      rw [length_sortByLe]
      exact le_trans (List.length_filter_le _ _) hlen
    rw [List.take_of_length_le hlenfil]
    exact hsort

/-- C7 witness: the amended statement exercised at concrete inputs — the
selection facts on a one-entry table, the empty-string write for a
no-content crawl, and the re-selection of a marked entry. -/
theorem C7_batch_selection_amended_witness :
    ({ id := 1, url := "http://a.com/x".toList, visit_time := 0,
       markdown_content := some [] } : EnrichEntry) ∈
      selectBatch [{ id := 1, url := "http://a.com/x".toList, visit_time := 0,
                     markdown_content := some [] }] ∧
    (∀ x ∈ applyEnrichEntry [] (fun _ => "a.com".toList) (fun _ => FetchOutcome.noContent)
        [{ id := 1, url := "http://a.com/x".toList, visit_time := 0,
           markdown_content := none }]
        { id := 1, url := "http://a.com/x".toList, visit_time := 0,
          markdown_content := none },
      x.id = 1 → x.markdown_content = some []) :=
  ⟨C7_batch_selection_amended.2.2.2.2.2
      [{ id := 1, url := "http://a.com/x".toList, visit_time := 0,
         markdown_content := some [] }]
      { id := 1, url := "http://a.com/x".toList, visit_time := 0,
        markdown_content := some [] }
      (by decide) (by decide) (by decide),
    fun x hx => C7_batch_selection_amended.2.2.2.1 [] (fun _ => "a.com".toList)
      (fun _ => FetchOutcome.noContent)
      [{ id := 1, url := "http://a.com/x".toList, visit_time := 0,
         markdown_content := none }]
      { id := 1, url := "http://a.com/x".toList, visit_time := 0,
        markdown_content := none }
      (by decide) rfl x hx⟩

/-! ## C8: excluded domains are never assigned content -/

/-- Every selected batch entry comes from the table. -/
theorem selectBatch_subset {db : List EnrichEntry} {e : EnrichEntry}
    (he : e ∈ selectBatch db) : e ∈ db := by
  rw [selectBatch] at he
  exact (List.mem_filter.mp (mem_sortByLe.mp (List.mem_of_mem_take he))).1

/-- The identity-and-url skeleton of the enrichment table, which content
updates never change. -/
def enrichSkeleton (db : List EnrichEntry) : List (Nat × List Char) :=
  db.map (fun e => (e.id, e.url))

theorem enrichSkeleton_update (db : List EnrichEntry) (i : Nat) (c : Option (List Char)) :
    enrichSkeleton (updateContentById db i c) = enrichSkeleton db := by
  rw [enrichSkeleton, updateContentById, enrichSkeleton, List.map_map]
  apply List.map_congr_left
  intro e _
  by_cases h : e.id = i
  · simp [h]
  · simp [h]

theorem enrichSkeleton_apply (patterns : List (List Char)) (netloc : List Char → List Char)
    (fetch : List Char → FetchOutcome) (db : List EnrichEntry) (e : EnrichEntry) :
    enrichSkeleton (applyEnrichEntry patterns netloc fetch db e) = enrichSkeleton db := by
  rw [applyEnrichEntry]
  by_cases h : configIsDomainIgnored patterns (netloc e.url)
  · rw [if_pos h]
  · rw [if_neg h]
    cases hf : fetch e.url with
    | error => rfl
    | noContent => exact enrichSkeleton_update db e.id (some [])
    | content md => exact enrichSkeleton_update db e.id (some md)

theorem mem_updateContentById {db : List EnrichEntry} {i : Nat} {c : Option (List Char)}
    {x : EnrichEntry} (hx : x ∈ updateContentById db i c) :
    ∃ y ∈ db, x = y ∨ (y.id = i ∧ x = { y with markdown_content := c }) := by
  rw [updateContentById] at hx
  obtain ⟨y, hy, hxy⟩ := List.mem_map.mp hx
  refine ⟨y, hy, ?_⟩
  by_cases h : y.id = i
  · rw [if_pos h] at hxy
    exact Or.inr ⟨h, hxy.symm⟩
  · rw [if_neg h] at hxy
    exact Or.inl hxy.symm

/-- The invariant: every entry whose recomputed domain the filter excludes
has no content. -/
def enrichInv (patterns : List (List Char)) (netloc : List Char → List Char)
    (db : List EnrichEntry) : Prop :=
  ∀ e ∈ db, configIsDomainIgnored patterns (netloc e.url) = true → e.markdown_content = none

theorem enrichInv_apply (patterns : List (List Char)) (netloc : List Char → List Char)
    (fetch : List Char → FetchOutcome) (db0 db : List EnrichEntry) (e : EnrichEntry)
    (hnodup : (db0.map EnrichEntry.id).Nodup)
    (he0 : e ∈ db0)
    (hskel : enrichSkeleton db = enrichSkeleton db0)
    (hinv : enrichInv patterns netloc db) :
    enrichInv patterns netloc (applyEnrichEntry patterns netloc fetch db e) := by
  rw [applyEnrichEntry]
  by_cases hign : configIsDomainIgnored patterns (netloc e.url)
  · rw [if_pos hign]
    exact hinv
  · rw [if_neg hign]
    have hupd : ∀ c : Option (List Char),
        enrichInv patterns netloc (updateContentById db e.id c) := by
      intro c x hx hxign
      obtain ⟨y, hy, hcase⟩ := mem_updateContentById hx
      rcases hcase with heq | ⟨hyid, heq⟩
      · rw [heq]
        exact hinv y hy (by rw [← heq]; exact hxign)
      · rw [heq]
        exfalso
        have hyign : configIsDomainIgnored patterns (netloc y.url) = true := by
          rw [heq] at hxign
          simpa using hxign
        have hmem : (y.id, y.url) ∈ enrichSkeleton db0 := by
          rw [← hskel, enrichSkeleton]
          exact List.mem_map.mpr ⟨y, hy, rfl⟩
        rw [enrichSkeleton] at hmem
        obtain ⟨z, hz, hzy⟩ := List.mem_map.mp hmem
        have hz1 : z.id = y.id := congrArg Prod.fst hzy
        have hz2 : z.url = y.url := congrArg Prod.snd hzy
        have hze : z = e :=
          List.inj_on_of_nodup_map hnodup hz he0 (by rw [hz1, hyid])
        have : configIsDomainIgnored patterns (netloc e.url) = true := by
          rw [← hze, hz2]
          exact hyign
        exact hign this
    cases hf : fetch e.url with
    | error => exact hinv
    | noContent => exact hupd (some [])
    | content md => exact hupd (some md)

theorem enrich_foldl_preserves (patterns : List (List Char)) (netloc : List Char → List Char)
    (fetch : List Char → FetchOutcome) (db0 : List EnrichEntry)
    (hnodup : (db0.map EnrichEntry.id).Nodup) :
    ∀ (sel db : List EnrichEntry), (∀ e ∈ sel, e ∈ db0) →
      enrichSkeleton db = enrichSkeleton db0 →
      enrichInv patterns netloc db →
      enrichInv patterns netloc
          (sel.foldl (applyEnrichEntry patterns netloc fetch) db) ∧
        enrichSkeleton (sel.foldl (applyEnrichEntry patterns netloc fetch) db) =
          enrichSkeleton db0 := by
  intro sel
  induction sel with
  | nil => intro db _ hskel hinv; exact ⟨hinv, hskel⟩
  | cons e rest ih =>
    intro db hsub hskel hinv
    rw [List.foldl_cons]
    have he0 : e ∈ db0 := hsub e (by simp)
    have hinv1 := enrichInv_apply patterns netloc fetch db0 db e hnodup he0 hskel hinv
    have hskel1 : enrichSkeleton (applyEnrichEntry patterns netloc fetch db e) =
        enrichSkeleton db0 := by
      rw [enrichSkeleton_apply, hskel]
    exact ih (applyEnrichEntry patterns netloc fetch db e)
      (fun x hx => hsub x (by simp [hx])) hskel1 hinv1

theorem processMarkdownBatch_preserves (patterns : List (List Char))
    (netloc : List Char → List Char) (fetch : List Char → FetchOutcome)
    (db : List EnrichEntry)
    (hnodup : (db.map EnrichEntry.id).Nodup)
    (hinv : enrichInv patterns netloc db) :
    enrichInv patterns netloc (processMarkdownBatch patterns netloc fetch db) ∧
      enrichSkeleton (processMarkdownBatch patterns netloc fetch db) = enrichSkeleton db := by
  rw [processMarkdownBatch]
  exact enrich_foldl_preserves patterns netloc fetch db hnodup (selectBatch db) db
    (fun e he => selectBatch_subset he) rfl hinv

/-- C8: an entry whose recomputed domain the filter excludes is never
assigned content by the enrichment worker: if every excluded entry starts
content-absent (as ingestion creates them) and ids are unique (the primary
key), then after any number of enrichment batches, with any crawl outcomes,
every excluded entry still has no content — it is skipped before any fetch
in every batch. -/
theorem C8_excluded_never_enriched (patterns : List (List Char))
    (netloc : List Char → List Char) (fetches : List (List Char → FetchOutcome))
    (db : List EnrichEntry)
    (hnodup : (db.map EnrichEntry.id).Nodup)
    (hinv : ∀ e ∈ db, configIsDomainIgnored patterns (netloc e.url) = true →
      e.markdown_content = none) :
    ∀ e ∈ runEnrichment patterns netloc fetches db,
      configIsDomainIgnored patterns (netloc e.url) = true →
      e.markdown_content = none := by
  induction fetches generalizing db with
  | nil =>
    rw [runEnrichment]
    exact hinv
  | cons f fs ih =>
    rw [runEnrichment]
    have hpres := processMarkdownBatch_preserves patterns netloc f db hnodup hinv
    have hnodup1 : ((processMarkdownBatch patterns netloc f db).map EnrichEntry.id).Nodup := by
      have hskel := hpres.2
      have hids : (processMarkdownBatch patterns netloc f db).map EnrichEntry.id =
          db.map EnrichEntry.id := by
        have := congrArg (List.map Prod.fst) hskel
        simpa [enrichSkeleton, List.map_map, Function.comp] using this
      rw [hids]
      exact hnodup
    exact ih (processMarkdownBatch patterns netloc f db) hnodup1 hpres.1

/-- C8 witness: two enrichment batches over a two-entry table (one entry on
an excluded domain) with successful crawls everywhere; the excluded entry is
still in the table and still has no content. -/
theorem C8_excluded_never_enriched_witness :
    ({ id := 1, url := "x.com".toList, visit_time := 0, markdown_content := none } : EnrichEntry) ∈
        runEnrichment ["x.com".toList] (fun u => u)
          [fun _ => FetchOutcome.content "md".toList, fun _ => FetchOutcome.content "md".toList]
          [{ id := 1, url := "x.com".toList, visit_time := 0, markdown_content := none },
            { id := 2, url := "y.com".toList, visit_time := 1, markdown_content := none }] ∧
      ({ id := 1, url := "x.com".toList, visit_time := 0,
         markdown_content := none } : EnrichEntry).markdown_content = none :=
  ⟨by decide,
    C8_excluded_never_enriched ["x.com".toList] (fun u => u)
      [fun _ => FetchOutcome.content "md".toList, fun _ => FetchOutcome.content "md".toList]
      [{ id := 1, url := "x.com".toList, visit_time := 0, markdown_content := none },
        { id := 2, url := "y.com".toList, visit_time := 1, markdown_content := none }]
      (by decide) (by decide)
      { id := 1, url := "x.com".toList, visit_time := 0, markdown_content := none }
      (by decide) (by decide)⟩

/-! ## C9: empty or whitespace-only pipeline output becomes None -/

/-- C9: whenever the whitespace-cleaned markdownify output is empty or
all-whitespace, html_to_markdown returns None; it never returns an empty or
whitespace-only string; and in particular an input consisting of only a
script block, a style block and whitespace — for which the regex passes
leave pure whitespace — yields None whenever the soup re-serialisation
leaves that whitespace unchanged and the converter turns it into something
whitespace-cleans to empty or whitespace. -/
theorem C9_whitespace_yields_none :
    (∀ (soup mdify : List Char → List Char) (html : List Char),
      ((cleanWhitespace (mdify (cleanHtml soup html))).isEmpty = true ∨
        pyIsSpaceStr (cleanWhitespace (mdify (cleanHtml soup html))) = true) →
      htmlToMarkdown soup mdify html = none) ∧
    (∀ (soup mdify : List Char → List Char) (html s : List Char),
      htmlToMarkdown soup mdify html = some s →
      s.isEmpty = false ∧ pyIsSpaceStr s = false) ∧
    (∀ soup mdify : List Char → List Char,
      soup " \n  \n".toList = " \n  \n".toList →
      ((cleanWhitespace (mdify " \n  \n".toList)).isEmpty = true ∨
        pyIsSpaceStr (cleanWhitespace (mdify " \n  \n".toList)) = true) →
      htmlToMarkdown soup mdify
        "<script>var x = 1;</script> \n <style>p color red</style> \n".toList = none) := by
  refine ⟨?_, ?_, ?_⟩
  · intro soup mdify html hws
    rw [htmlToMarkdown]
    by_cases hempty : (cleanHtml soup html).isEmpty
    · rw [if_pos hempty]
    · rw [if_neg hempty]
      rcases hws with h | h
      · simp [h]
      · simp [h]
  · intro soup mdify html s hsome
    rw [htmlToMarkdown] at hsome
    by_cases hempty : (cleanHtml soup html).isEmpty
    · rw [if_pos hempty] at hsome
      exact absurd hsome (by simp)
    · rw [if_neg hempty] at hsome
      by_cases hguard : (cleanWhitespace (mdify (cleanHtml soup html))).isEmpty ||
          pyIsSpaceStr (cleanWhitespace (mdify (cleanHtml soup html)))
      · rw [if_pos hguard] at hsome
        exact absurd hsome (by simp)
      · rw [if_neg hguard] at hsome
        simp only [Option.some.injEq] at hsome
        rw [← hsome]
        simpa [not_or] using hguard
  · intro soup mdify hsoup hws
    have hch : cleanHtml soup
        "<script>var x = 1;</script> \n <style>p color red</style> \n".toList =
        " \n  \n".toList := by
      rw [cleanHtml, if_neg (by decide)]
      rw [show regexStripAll
          "<script>var x = 1;</script> \n <style>p color red</style> \n".toList =
          " \n  \n".toList from by decide]
      exact hsoup
    rw [htmlToMarkdown, hch]
    rw [if_neg (by decide)]
    have hguard : ((cleanWhitespace (mdify " \n  \n".toList)).isEmpty ||
        pyIsSpaceStr (cleanWhitespace (mdify " \n  \n".toList))) = true := by
      rcases hws with h | h
      · rw [h, Bool.true_or]
      · rw [h, Bool.or_true]
    rw [if_pos hguard]

/-- C9 witness: the particular script-style-whitespace input through the
pipeline with the identity soup and converter yields None. -/
theorem C9_whitespace_yields_none_witness :
    htmlToMarkdown id id
      "<script>var x = 1;</script> \n <style>p color red</style> \n".toList = none :=
  C9_whitespace_yields_none.2.2 id id rfl (Or.inl (by decide))

end BrowserRecall
